import Mathlib

set_option maxHeartbeats 1600000

/- Verification development for the configuration-object lifecycle engine
   (`ConfigItem` in the source): shallow embeddings of `RemoveIgnoredItems`,
   `Register`, `Unregister`, `Commit`, `CommitItems`, `CommitNewItems` and the
   restore half of `ReloadObject`, together with theorems checking the
   specification's claims about them.  External collaborators (expression
   evaluator, validator, type registry, work queue, dependency graph) are
   modelled as oracle parameters; everything the engine itself does is
   translated from the source. -/

/-! ## Ignored-items list (`ConfigItem::RemoveIgnoredItems`) -/

namespace Ign

/-- Substring occurrence over character lists, mirroring the `String::Find`
call in `ConfigItem::RemoveIgnoredItems`: true iff `needle` occurs anywhere in
`hay` (for the empty needle `std::string::find` returns 0, i.e. found). -/
def containsSub (hay needle : List Char) : Bool :=
  match hay with
  | [] => needle.isEmpty
  | c :: t => needle.isPrefixOf (c :: t) || containsSub t needle

/-- Shallow embedding of `ConfigItem::RemoveIgnoredItems` (source lines
734-749): for each recorded path, if `path.Find(allowedConfigPath)` is not
`NPos` (i.e. the argument occurs as a substring) the file is unlinked; at the
end the whole ignored-items list is cleared.  Result: (paths unlinked, new
ignored-items list). -/
def RemoveIgnoredItems (ignored : List String) (allowedConfigPath : String) :
    List String × List String :=
  (ignored.filter (fun p => containsSub p.toList allowedConfigPath.toList), [])

/-- The specification's notion for claim C1: the path starts with the given
prefix string (`p.startsWith(prefix)`). -/
def specStartsWith (p pre : String) : Bool :=
  pre.toList.isPrefixOf p.toList

end Ign

/-! ## Item registry (`ConfigItem::Register`, `Unregister`, `CommitItems`) -/

namespace Reg

structure DebugInfo where
  path : String
  firstLine : Nat
  firstColumn : Nat
  lastLine : Nat
  lastColumn : Nat
deriving DecidableEq, Repr

/-- The fields of a `ConfigItem` that the registry operations consult.
`hasComposer` records whether `dynamic_cast<NameComposer *>(m_Type.get())` is
non-null for the item's type.  `id` models object identity (the `this`
pointer). -/
structure RegItem where
  id : Nat
  typeName : String
  hasComposer : Bool
  name : String
  abstract : Bool
  defaultTmpl : Bool
  debugInfo : DebugInfo
deriving DecidableEq, Repr

/-- The payload of the `ScriptError` thrown on a duplicate definition: the
message embeds the debug info of the existing and of the new declaration. -/
structure RegError where
  existingInfo : DebugInfo
  newInfo : DebugInfo
deriving DecidableEq, Repr

/-- The registry state: `m_Items` (named index keyed by (type, name)),
`m_DefaultTemplates`, `m_UnnamedItems`, plus the item->object attachments
(`m_Object` fields) and the set of registered live objects, which
`Unregister` manipulates. -/
structure Registry where
  items : List ((String × String) × RegItem)
  defaultTemplates : List ((String × String) × RegItem)
  unnamed : List RegItem
  attached : List (Nat × Nat)
  liveObjects : List Nat
deriving DecidableEq, Repr

def lookupNamed (st : Registry) (ty nm : String) : Option RegItem :=
  (st.items.find? (fun kv => kv.1.1 == ty && kv.1.2 == nm)).map (fun kv => kv.2)

def lookupDefault (st : Registry) (ty nm : String) : Option RegItem :=
  (st.defaultTemplates.find? (fun kv => kv.1.1 == ty && kv.1.2 == nm)).map
    (fun kv => kv.2)

def lookupAttached (st : Registry) (itemId : Nat) : Option Nat :=
  (st.attached.find? (fun p => p.1 == itemId)).map (fun p => p.2)

/-- Shallow embedding of `ConfigItem::Register` (source lines 325-353).
A non-abstract item whose type has a name composer goes to `m_UnnamedItems`
with no check; every other item goes to the named index, throwing a
duplicate-definition `ScriptError` (carrying both debug infos) when the
(type, name) key is already present, and is mirrored into
`m_DefaultTemplates` when its default-template flag is set.  The error case
returns the registry unchanged because the throw happens before any
insertion. -/
def Register (st : Registry) (it : RegItem) : Option RegError × Registry :=
  if !it.abstract && it.hasComposer then
    (none, { st with unnamed := st.unnamed ++ [it] })
  else
    match st.items.find? (fun kv => kv.1.1 == it.typeName && kv.1.2 == it.name) with
    | some kv => (some ⟨kv.2.debugInfo, it.debugInfo⟩, st)
    | none =>
        (none, { st with
          items := st.items ++ [((it.typeName, it.name), it)],
          defaultTemplates :=
            if it.defaultTmpl then
              st.defaultTemplates ++ [((it.typeName, it.name), it)]
            else st.defaultTemplates })

/-- Shallow embedding of `ConfigItem::Unregister` (source lines 358-369): if
an object is attached it is unregistered from the live set and the attachment
cleared; then the item is erased from `m_UnnamedItems` (by identity), from
`m_Items` and from `m_DefaultTemplates` (by (type, name) key). -/
def Unregister (st : Registry) (it : RegItem) : Registry :=
  let st1 :=
    match st.attached.find? (fun p => p.1 == it.id) with
    | some p =>
        { st with
          liveObjects := st.liveObjects.filter (fun o => o != p.2),
          attached := st.attached.filter (fun q => q.1 != it.id) }
    | none => st
  { st1 with
    unnamed := st1.unnamed.filter (fun x => x.id != it.id),
    items := st1.items.filter (fun kv => !(kv.1.1 == it.typeName && kv.1.2 == it.name)),
    defaultTemplates :=
      st1.defaultTemplates.filter
        (fun kv => !(kv.1.1 == it.typeName && kv.1.2 == it.name)) }

/-- Shallow embedding of `ConfigItem::CommitItems` (source lines 542-577) at
the call site of `CommitNewItems`, whose outcome (`commitOk`, and the items it
appended to `newItems`) is passed in: on failure every collected item is
unregistered and false is returned; on success the function goes on to apply
rule checks and logging (external, no registry effect) and returns true. -/
def CommitItems (commitOk : Bool) (newItems : List RegItem) (st : Registry) :
    Bool × Registry :=
  if commitOk then (true, st)
  else (false, newItems.foldl Unregister st)

end Reg

/-! ## Per-item commit (`ConfigItem::Commit`) -/

namespace Cm

/-- What `Commit` consults of a type descriptor: the type name, whether
`ConfigObject::TypeInstance->IsAssignableFrom(type)` holds, and whether the
type has a `NameComposer`. -/
structure TypeDesc where
  name : String
  assignable : Bool
  hasComposer : Bool
deriving DecidableEq, Repr

/-- The fields of the config object that `Commit` writes: `oid` models the
object identity produced by `type->Instantiate`. -/
structure ObjState where
  oid : Nat
  name : String
  shortName : String
  zone : String
  package : String
  creationType : String
  debugInfo : Reg.DebugInfo
deriving DecidableEq, Repr

/-- The immutable fields of a `ConfigItem` that `Commit` reads.  `itype` is
`Option` because `m_Type` may be null. -/
structure Item where
  itype : Option TypeDesc
  name : String
  abstract : Bool
  ignoreOnError : Bool
  debugInfo : Reg.DebugInfo
  zone : String
  package : String
  creationType : String
deriving DecidableEq, Repr

/-- The item's mutable state touched by `Commit`: whether `m_Expression` is
still present, and the attached object `m_Object`. -/
structure ItemSt where
  hasExpression : Bool
  obj : Option ObjState
deriving DecidableEq, Repr

/-- Oracles for the external calls made during `Commit`: the id the
instantiation produces, whether expression evaluation throws, the short name
the evaluated object reports, the name composer's `MakeName`, and whether
validation / `OnConfigLoaded` throw. -/
structure Env where
  freshId : Nat
  evalThrows : Bool
  shortNameAfterEval : String
  makeName : String → String
  validateThrows : Bool
  onConfigLoadedThrows : Bool

inductive CommitErr where
  | unknownType
  | evalError
  | emptyName
  | nameComposerFailure
  | validationError
  | onConfigLoadedError
deriving DecidableEq, Repr

/-- The returned value of a `Commit` call: an error for a thrown exception,
otherwise the optional object. -/
inductive CommitResult where
  | error (e : CommitErr)
  | ok (o : Option ObjState)
deriving DecidableEq, Repr

/-- The observable outcome of one `Commit` call: the returned value, the
item's new mutable state, the paths appended to the ignored-items list, the
persisted snapshot records (type name, item name, debug info) written to the
compiler context, and the object ids passed to `ConfigObject::Register`. -/
structure Outcome where
  result : CommitResult
  st : ItemSt
  ignoredAppend : List String
  persisted : List (String × String × Reg.DebugInfo)
  registered : List Nat
deriving DecidableEq, Repr

/-- The `item_name` computed at source lines 227-234: the object's short name
when non-empty, else the item's `m_Name`. -/
def effectiveName (env : Env) (it : Item) : String :=
  if env.shortNameAfterEval ≠ "" then env.shortNameAfterEval else it.name

/-- Shallow embedding of `ConfigItem::Commit` (source lines 178-320),
following the source's control flow step by step:
type check, abstract early return, instantiate and stamp, evaluate
(ignore-on-error converts a throw into an ignored-list entry and a null
return), expression discard, short-name/item-name selection, name composer
(empty input name throws, empty composed name throws, differing composed name
stores the input as short name), validation, `OnConfigLoaded`, persistence,
object registration and attachment. -/
def Commit (it : Item) (st : ItemSt) (env : Env) (discard : Bool) : Outcome :=
  match it.itype with
  | none => ⟨.error .unknownType, st, [], [], []⟩
  | some ty =>
    if !ty.assignable then ⟨.error .unknownType, st, [], [], []⟩
    else if it.abstract then ⟨.ok none, st, [], [], []⟩
    else
      let dobj0 : ObjState :=
        ⟨env.freshId, it.name, "", it.zone, it.package, it.creationType, it.debugInfo⟩
      if env.evalThrows then
        if it.ignoreOnError then ⟨.ok none, st, [it.debugInfo.path], [], []⟩
        else ⟨.error .evalError, st, [], [], []⟩
      else
        let st1 := if discard then { st with hasExpression := false } else st
        let item_name := effectiveName env it
        let dobj1 :=
          if env.shortNameAfterEval ≠ "" then { dobj0 with name := env.shortNameAfterEval }
          else dobj0
        let nameRes : CommitErr ⊕ String :=
          if ty.hasComposer then
            if item_name = "" then .inl .emptyName
            else
              let n := env.makeName item_name
              if n = "" then .inl .nameComposerFailure else .inr n
          else .inr item_name
        match nameRes with
        | .inl e => ⟨.error e, st1, [], [], []⟩
        | .inr nm =>
          let dobj2 :=
            if nm ≠ item_name then { dobj1 with shortName := item_name } else dobj1
          let dobj3 := { dobj2 with name := nm }
          if env.validateThrows then
            if it.ignoreOnError then ⟨.ok none, st1, [it.debugInfo.path], [], []⟩
            else ⟨.error .validationError, st1, [], [], []⟩
          else if env.onConfigLoadedThrows then
            if it.ignoreOnError then ⟨.ok none, st1, [it.debugInfo.path], [], []⟩
            else ⟨.error .onConfigLoadedError, st1, [], [], []⟩
          else
            ⟨.ok (some dobj3), { st1 with obj := some dobj3 },
              [], [(ty.name, it.name, it.debugInfo)], [dobj3.oid]⟩

end Cm

/-! ## Batch commit and finalization (`ConfigItem::CommitNewItems`)

The work queue is modelled by running each enqueued task's effect in order and
recording thrown exceptions in a `hasExn` flag (the queue accumulates
exceptions and every `Join` is followed by a `HasExceptions` check);
cross-barrier ordering is what the source guarantees, and each barrier's tasks
are homogeneous, so recording tasks as atomic trace events is faithful for the
ordering claims.  The possibly non-terminating outer fixed-point loop and the
recursive re-entry are given explicit fuel; a `none` result models a run that
does not complete. -/

namespace CN

/-- A type descriptor as consulted by `CommitNewItems`: its name, whether it
is assignable from `ConfigObject`, and its declared load dependencies. -/
structure TyDesc where
  name : String
  assignable : Bool
  loadDependencies : List String
deriving DecidableEq, Repr

/-- The fields of a `ConfigItem` consulted by `CommitNewItems`.  `composite`
records whether the type has a name composer (such non-abstract items live in
`m_UnnamedItems`); `ctx` is the item's activation context. -/
structure CItem where
  id : Nat
  typeName : String
  name : String
  abstract : Bool
  ignoreOnError : Bool
  composite : Bool
  ctx : Nat
  path : String
deriving DecidableEq, Repr

/-- Trace events: a successful per-item `Commit`, an `OnAllConfigLoaded`
invocation on an item's object while type `ty` is being finalized, and a
`CreateChildObjects(forType)` invocation on an item's object. -/
inductive Ev where
  | commit (id : Nat)
  | oacl (id : Nat) (ty : String)
  | createChild (id : Nat) (forType : String)
deriving DecidableEq, Repr

/-- Outcome of one enqueued `Commit(discard)` task. -/
inductive CommitRes where
  | success
  | ignored
  | exn
deriving DecidableEq, Repr

/-- Oracles for the external behaviour: the global type registry
(`Type::GetAllTypes` / `Type::GetByName`), the outcome of each item's
`Commit`, whether each object's `OnAllConfigLoaded` throws, and whether /
which items each object's `CreateChildObjects(forType)` registers. -/
structure Env where
  allTypes : List TyDesc
  commitOutcome : Nat → CommitRes
  oaclThrows : Nat → Bool
  childThrows : Nat → String → Bool
  childItems : Nat → String → List CItem

/-- The registry state threaded through `CommitNewItems`: the named index
(flattened, in iteration order), `m_UnnamedItems`, the ids of items whose
`m_Object` is attached, the ignored-items list, the work queue's accumulated
exception flag, and the event trace.  The default-template index is omitted:
no path in `CommitNewItems` reads it. -/
structure St where
  named : List CItem
  unnamed : List CItem
  objects : List Nat
  ignored : List String
  hasExn : Bool
  trace : List Ev
deriving DecidableEq, Repr

/-- The concrete config-object types: `Type::GetAllTypes()` filtered by
`ConfigObject::TypeInstance->IsAssignableFrom` (source lines 447-452). -/
def typesOf (env : Env) : List TyDesc :=
  env.allTypes.filter (fun t => t.assignable)

/-- Candidate collection under the registry lock (source lines 400-430): from
the named index every non-abstract, object-less item of the given context
(discard flag false); the unnamed list is swapped, keeping items of other
contexts, and contributes its non-abstract object-less items of the context
with discard flag true. -/
def collectCandidates (ctx : Nat) (st : St) : List (CItem × Bool) × St :=
  let namedSel :=
    st.named.filter (fun it =>
      !(it.abstract || st.objects.contains it.id) && it.ctx == ctx)
  let keepUnnamed := st.unnamed.filter (fun it => it.ctx != ctx)
  let unnamedSel :=
    st.unnamed.filter (fun it =>
      it.ctx == ctx && !(it.abstract || st.objects.contains it.id))
  (namedSel.map (fun it => (it, false)) ++ unnamedSel.map (fun it => (it, true)),
    { st with unnamed := keepUnnamed })

/-- Effect of one enqueued `Commit(discard)` task: a successful commit
attaches the object, an ignored one appends the item's path to the ignored
list, a throwing one is recorded by the work queue. -/
def commitStep (env : Env) (s : St) (p : CItem × Bool) : St :=
  match env.commitOutcome p.1.id with
  | .success =>
      { s with objects := s.objects ++ [p.1.id], trace := s.trace ++ [.commit p.1.id] }
  | .ignored => { s with ignored := s.ignored ++ [p.1.path] }
  | .exn => { s with hasExn := true }

/-- The commit barrier (source lines 435-442): one `Commit(discard)` task per
candidate. -/
def runCommits (env : Env) (cands : List (CItem × Bool)) (st : St) : St :=
  cands.foldl (commitStep env) st

/-- Item unregistration as performed in the `OnAllConfigLoaded` ignore path
(`item->Unregister()`, source lines 358-369 and 490): the object is detached,
the item leaves the unnamed list (by identity) and the named index (by
(type, name) key). -/
def unregisterCN (st : St) (it : CItem) : St :=
  { st with
    objects := st.objects.filter (fun o => o != it.id),
    unnamed := st.unnamed.filter (fun x => x.id != it.id),
    named := st.named.filter (fun x => !(x.typeName == it.typeName && x.name == it.name)) }

/-- Effect of one `OnAllConfigLoaded` task while type `t` is being finalized:
a throwing task either (ignore-on-error) unregisters the item and records its
path, or surfaces the exception in the work queue. -/
def oaclStep (env : Env) (t : TyDesc) (s0 : St) (p : CItem × Bool) : St :=
  let s := { s0 with trace := s0.trace ++ [.oacl p.1.id t.name] }
  if env.oaclThrows p.1.id then
    if p.1.ignoreOnError then
      let s1 := unregisterCN s p.1
      { s1 with ignored := s1.ignored ++ [p.1.path] }
    else { s with hasExn := true }
  else s

/-- The `OnAllConfigLoaded` barrier for type `t` (source lines 475-508): one
task per frame item with an attached object whose type is `t` (the
`!item->m_Object` test happens at enqueue time, i.e. against the barrier's
entry state). -/
def oaclPhase (env : Env) (t : TyDesc) (items : List (CItem × Bool)) (st : St) : St :=
  (items.filter (fun p => st.objects.contains p.1.id && p.1.typeName == t.name)).foldl
    (oaclStep env t) st

/-- Registration of the items a `CreateChildObjects` call produces, under the
calling item's activation scope (`ActivationScope ascope(item->m_ActivationContext)`),
following `ConfigItem::Register`: composite non-abstract items go to the
unnamed list, the rest to the named index, throwing (work-queue exception) on
a duplicate (type, name) key. -/
def registerChildren (st : St) (cs : List CItem) (ctx : Nat) : St :=
  match cs with
  | [] => st
  | c :: rest =>
      let c1 := { c with ctx := ctx }
      if !c1.abstract && c1.composite then
        registerChildren { st with unnamed := st.unnamed ++ [c1] } rest ctx
      else if st.named.any (fun x => x.typeName == c1.typeName && x.name == c1.name) then
        { st with hasExn := true }
      else
        registerChildren { st with named := st.named ++ [c1] } rest ctx

/-- Effect of one `CreateChildObjects(t)` task. -/
def childStep (env : Env) (t : TyDesc) (s0 : St) (p : CItem × Bool) : St :=
  let s := { s0 with trace := s0.trace ++ [.createChild p.1.id t.name] }
  if env.childThrows p.1.id t.name then { s with hasExn := true }
  else registerChildren s (env.childItems p.1.id t.name) p.1.ctx

/-- The `CreateChildObjects` barrier after type `t` is finalized (source
lines 513-529): for each declared load dependency of `t`, one
`CreateChildObjects(t)` task per frame item with an attached object whose
type name equals the dependency. -/
def childPhase (env : Env) (t : TyDesc) (items : List (CItem × Bool)) (st : St) : St :=
  t.loadDependencies.foldl
    (fun s dep =>
      (items.filter (fun p => s.objects.contains p.1.id && p.1.typeName == dep)).foldl
        (childStep env t) s)
    st

/-- The unresolved-load-dependency test (source lines 461-470): a dependency
name is looked up via `Type::GetByName`; it blocks the type only when the
resulting type is in the concrete set and not yet completed. -/
def unresolvedDep (env : Env) (types : List TyDesc) (completed : List String)
    (t : TyDesc) : Bool :=
  t.loadDependencies.any (fun dep =>
    match env.allTypes.find? (fun u => u.name == dep) with
    | none => false
    | some pd => types.any (fun u => u.name == pd.name) && !completed.contains pd.name)

/-- Result of one iteration of the inner for-loop over the type set: either an
early return out of `CommitNewItems` (`abort`, carrying the returned value,
`none` for an incomplete run) or the pass continuing with the updated
completed set and state. -/
inductive PassRes where
  | abort (r : Option Bool) (st : St)
  | done (completed : List String) (st : St)
deriving Repr

/-- Processing of one ready type (source lines 475-535): the
`OnAllConfigLoaded` barrier, completion marking, join and exception check,
the `CreateChildObjects` barrier, join and exception check, then the
recursive `CommitNewItems` re-entry `rec`. -/
def processType (rec : St → Option Bool × St) (env : Env) (t : TyDesc)
    (items : List (CItem × Bool)) (completed : List String) (st : St) : PassRes :=
  let st1 := oaclPhase env t items st
  let completed1 := completed ++ [t.name]
  if st1.hasExn then .abort (some false) st1
  else
    let st2 := childPhase env t items st1
    if st2.hasExn then .abort (some false) st2
    else
      match rec st2 with
      | (some true, st3) => .done completed1 st3
      | (r, st3) => .abort r st3

/-- One full pass of the for-loop over the type set, skipping completed types
and types with unresolved load dependencies. -/
def typePass (rec : St → Option Bool × St) (env : Env) (types : List TyDesc)
    (pending : List TyDesc) (completed : List String)
    (items : List (CItem × Bool)) (st : St) : PassRes :=
  match pending with
  | [] => .done completed st
  | t :: rest =>
      if completed.contains t.name then typePass rec env types rest completed items st
      else if unresolvedDep env types completed t then
        typePass rec env types rest completed items st
      else
        match processType rec env t items completed st with
        | .abort r s => .abort r s
        | .done c s => typePass rec env types rest c items s

/-- The outer while loop (source line 456): repeat full passes until every
concrete type is completed; `wf` is the fuel bounding the number of passes
(the source loops forever when no progress is possible). -/
def whileLoop (rec : St → Option Bool × St) (env : Env) (types : List TyDesc)
    (items : List (CItem × Bool)) : Nat → List String → St → Option Bool × St
  | 0, _, st => (none, st)
  | wf + 1, completed, st =>
      if types.length == completed.length then (some true, st)
      else
        match typePass rec env types types completed items st with
        | .abort r s => (r, s)
        | .done c s => whileLoop rec env types items wf c s

/-- Shallow embedding of `ConfigItem::CommitNewItems` (source lines 395-540)
with fuel bounding recursion depth and fixed-point passes: collect the
candidates of the activation context, return true on an empty set, run the
commit barrier, join and check, then run the dependency-ordered finalization
loop (which re-enters recursively after each type's child-creation barrier). -/
def commitNewItems (env : Env) (ctx : Nat) : Nat → St → Option Bool × St
  | 0, st => (none, st)
  | f + 1, st =>
      let cst := collectCandidates ctx st
      if cst.1.isEmpty then (some true, cst.2)
      else
        let st2 := runCommits env cst.1 cst.2
        if st2.hasExn then (some false, st2)
        else
          whileLoop (fun s => commitNewItems env ctx f s) env (typesOf env) cst.1
            (f + 1) [] st2

/-- The specification's notion for claim C3: the transitive load-dependency
set of a type name, the closure of the declared `load-dependencies` lists
(fuel-bounded). -/
def specTransDeps (env : Env) : Nat → String → List String
  | 0, _ => []
  | f + 1, a =>
      match env.allTypes.find? (fun u => u.name == a) with
      | none => []
      | some t =>
          t.loadDependencies.foldl (fun acc d => acc ++ d :: specTransDeps env f d) []

/-- The load dependencies of a type name that the source's unresolved-dep test
actually enforces: those whose `Type::GetByName` result lies in the concrete
config-object type set. -/
def restrictedDeps (env : Env) (tn : String) : List String :=
  match env.allTypes.find? (fun u => u.name == tn) with
  | none => []
  | some td =>
      td.loadDependencies.filter (fun dep =>
        match env.allTypes.find? (fun u => u.name == dep) with
        | none => false
        | some pd => (typesOf env).any (fun u => u.name == pd.name))

/-- Reachability through `restrictedDeps` (fuel-bounded): the transitive
load-dependency relation restricted to the concrete config-object type set. -/
def restrictedReach (env : Env) : Nat → String → String → Bool
  | 0, _, _ => false
  | f + 1, a, b =>
      (restrictedDeps env a).any (fun d => d == b || restrictedReach env f d b)

end CN

/-! ## Reload rollback (`RestoreObjectsHelper` and `ConfigItem::ReloadObject`) -/

namespace Reload

/-- What the restore walk reads of a deleted config object. -/
structure DObj where
  oid : Nat
  typeName : String
  name : String
  creationType : String
deriving DecidableEq, Repr

/-- One snapshot entry recorded by `DeleteObjectHelper`: the deleted object
and the `ConfigItem` that produced it, when one was registered. -/
structure DeletedObjectInfo where
  object : DObj
  item : Option Nat
deriving DecidableEq, Repr

/-- The externally visible steps the restore walk performs, tagged with the
object they act on. -/
inductive RStep where
  | migrateState (oid : Nat)
  | resetDeletedMarker (oid : Nat)
  | registerItem (oid : Nat)
  | onConfigLoaded (oid : Nat)
  | registerObject (oid : Nat)
  | onAllConfigLoaded (oid : Nat)
  | preActivate (oid : Nat)
  | activate (oid : Nat) (runtimeCreated : Bool)
deriving DecidableEq, Repr

/-- The restore action for one snapshot entry (source lines 798-829):
if a new object of the same (type, name) exists, migrate its `FAState` fields
from the old instance; otherwise, if `recoverApply` is set or the original
creation type is "object", re-insert the old object (reset the deletion
marker, re-register the item if present, `OnConfigLoaded`, `Register`,
`OnAllConfigLoaded`, `PreActivate`, `Activate(true)`); otherwise do nothing. -/
def restoreOne (newExists : String → String → Bool) (recoverApply : Bool)
    (doi : DeletedObjectInfo) : List RStep :=
  if newExists doi.object.typeName doi.object.name then
    [.migrateState doi.object.oid]
  else if recoverApply || doi.object.creationType == "object" then
    [.resetDeletedMarker doi.object.oid] ++
      (if doi.item.isSome then [.registerItem doi.object.oid] else []) ++
      [.onConfigLoaded doi.object.oid, .registerObject doi.object.oid,
        .onAllConfigLoaded doi.object.oid, .preActivate doi.object.oid,
        .activate doi.object.oid true]
  else []

/-- Shallow embedding of `RestoreObjectsHelper` (source lines 794-830): the
walk over the snapshot list in recording order. -/
def RestoreObjectsHelper (deletedObjects : List DeletedObjectInfo)
    (recoverApply : Bool) (newExists : String → String → Bool) : List RStep :=
  deletedObjects.flatMap (restoreOne newExists recoverApply)

/-- Shallow embedding of the try/catch envelope of `ConfigItem::ReloadObject`
(source lines 858-912) after the delete walk has recorded `deletedObjects`:
`rebuildErr` is the outcome of the rebuild-and-verify try block (the
`RunWithActivationContext` rebuild and the `CallbackFailedToRecreate` check);
on an exception the restore walk runs with `recoverApply = true` and the
exception is re-thrown, otherwise it runs with `recoverApply = false`.
Result: (re-thrown error if any, restore steps performed). -/
def ReloadObject (deletedObjects : List DeletedObjectInfo)
    (rebuildErr : Option String) (newExists : String → String → Bool) :
    Option String × List RStep :=
  match rebuildErr with
  | some e => (some e, RestoreObjectsHelper deletedObjects true newExists)
  | none => (none, RestoreObjectsHelper deletedObjects false newExists)

end Reload

/-! ## Concrete sample data used by witnesses and counterexamples -/

namespace Ex

def di1 : Reg.DebugInfo := ⟨"old.conf", 1, 1, 2, 2⟩

def di2 : Reg.DebugInfo := ⟨"new.conf", 3, 1, 4, 2⟩

/-- An abstract item occupying the named-index key ("T", "a"). -/
def regAbs : Reg.RegItem := ⟨1, "T", false, "a", true, false, di1⟩

/-- A non-abstract, non-composite item with the same (type, name). -/
def regNew : Reg.RegItem := ⟨2, "T", false, "a", false, false, di2⟩

/-- A registry whose only named entry is the abstract item `regAbs`. -/
def stDup : Reg.Registry := ⟨[(("T", "a"), regAbs)], [], [], [], []⟩

/-- A non-abstract composite-named item (for the unnamed-list branch). -/
def regComp : Reg.RegItem := ⟨5, "T", true, "c", false, false, di2⟩

def itemU1 : Reg.RegItem := ⟨3, "T", false, "u1", false, true, di1⟩

def itemU2 : Reg.RegItem := ⟨4, "T", true, "u2", false, false, di2⟩

/-- A registry in which `itemU1` is named (and a default template) and
`itemU2` is unnamed, both with attached registered objects. -/
def stC7 : Reg.Registry :=
  ⟨[(("T", "u1"), itemU1)], [(("T", "u1"), itemU1)], [itemU2],
    [(3, 30), (4, 40)], [30, 40]⟩

def cdi : Reg.DebugInfo := ⟨"obj.conf", 5, 1, 6, 2⟩

def tyT : Cm.TypeDesc := ⟨"T", true, false⟩

def tyC : Cm.TypeDesc := ⟨"C", true, true⟩

/-- An item of a composer type with a non-empty item name. -/
def cItemX : Cm.Item := ⟨some tyC, "x", false, false, cdi, "z", "p", "object"⟩

def cSt0 : Cm.ItemSt := ⟨true, none⟩

/-- A commit environment in which the evaluated object reports an empty short
name and the composer echoes its input. -/
def cEnvEmptyShort : Cm.Env := ⟨7, false, "", fun s => s, false, false⟩

def c2Item : Cm.Item := ⟨some tyT, "a", false, false, cdi, "z", "p", "object"⟩

def c2OldObj : Cm.ObjState := ⟨5, "a", "", "z", "p", "object", cdi⟩

/-- Item state after a first successful Commit: object with id 5 attached. -/
def c2StCommitted : Cm.ItemSt := ⟨true, some c2OldObj⟩

def c2Env : Cm.Env := ⟨9, false, "", fun s => s, false, false⟩

/-- Claim C3 counterexample environment: concrete types A, B, C, D; a
non-concrete type M with A -> M -> B in the declared load dependencies, and a
`CreateChildObjects` callback on item 4 (type D, triggered while finalizing C)
that registers a fresh item 5 of type D. -/
def cnEnvX : CN.Env :=
  { allTypes := [⟨"A", true, ["M"]⟩, ⟨"B", true, []⟩, ⟨"M", false, ["B"]⟩,
                 ⟨"C", true, ["D"]⟩, ⟨"D", true, []⟩]
    commitOutcome := fun _ => .success
    oaclThrows := fun _ => false
    childThrows := fun _ _ => false
    childItems := fun id ty =>
      if id == 4 && ty == "C" then [⟨5, "D", "d2", false, false, false, 0, ""⟩]
      else [] }

def cnStX : CN.St :=
  { named := [⟨1, "A", "a", false, false, false, 0, ""⟩,
              ⟨2, "B", "b", false, false, false, 0, ""⟩,
              ⟨3, "C", "c", false, false, false, 0, ""⟩,
              ⟨4, "D", "d", false, false, false, 0, ""⟩]
    unnamed := [], objects := [], ignored := [], hasExn := false, trace := [] }

/-- Witness environment: two concrete types with S declaring a load
dependency on H, no child creation, no failures. -/
def cnEnvW : CN.Env :=
  { allTypes := [⟨"H", true, []⟩, ⟨"S", true, ["H"]⟩]
    commitOutcome := fun _ => .success
    oaclThrows := fun _ => false
    childThrows := fun _ _ => false
    childItems := fun _ _ => [] }

def cnStW : CN.St :=
  { named := [⟨1, "S", "s", false, false, false, 0, ""⟩,
              ⟨2, "H", "h", false, false, false, 0, ""⟩]
    unnamed := [], objects := [], ignored := [], hasExn := false, trace := [] }

/-- An apply-rule-generated deleted object (creation type "apply") with a
recorded item, and a plain object without one. -/
def rObj1 : Reload.DObj := ⟨10, "T", "a", "apply"⟩

def rDoi1 : Reload.DeletedObjectInfo := ⟨rObj1, some 3⟩

def rObj2 : Reload.DObj := ⟨11, "T", "b", "object"⟩

def rDoi2 : Reload.DeletedObjectInfo := ⟨rObj2, none⟩

def rNoNew : String → String → Bool := fun _ _ => false

end Ex

/-! ## Claim C1: RemoveIgnoredItems -/

namespace Ign

/-- Prefix occurrence implies substring occurrence. -/
theorem containsSub_of_isPrefixOf (hay needle : List Char)
    (h : needle.isPrefixOf hay = true) : containsSub hay needle = true := by
  cases hay with
  | nil =>
      cases needle with
      | nil => rfl
      | cons c t => simp [List.isPrefixOf] at h
  | cons c t => simp [containsSub, h]

end Ign

/-- Claim C1, counterexample: with ignored list ["ab", "x"] and prefix "b",
the code unlinks "ab" (which does not start with "b", it merely contains it)
and empties the whole ignored list instead of keeping "x". -/
theorem c1_counterexample :
    (Ign.RemoveIgnoredItems ["ab", "x"] "b").1 = ["ab"] ∧
    Ign.specStartsWith "ab" "b" = false ∧
    (Ign.RemoveIgnoredItems ["ab", "x"] "b").2 = [] := by
  decide

/-- Claim C1, amended: `RemoveIgnoredItems(prefix)` unlinks exactly the
recorded paths that CONTAIN the prefix as a substring (a superset of the
paths that start with it) and then clears the entire ignored-items list,
retaining nothing. -/
theorem c1_remove_ignored_amended (ignored : List String) (pre p : String) :
    (p ∈ (Ign.RemoveIgnoredItems ignored pre).1 ↔
      p ∈ ignored ∧ Ign.containsSub p.toList pre.toList = true) ∧
    (Ign.RemoveIgnoredItems ignored pre).2 = [] ∧
    (Ign.specStartsWith p pre = true → Ign.containsSub p.toList pre.toList = true) := by
  refine ⟨?_, rfl, ?_⟩
  · simp [Ign.RemoveIgnoredItems, List.mem_filter]
  · exact Ign.containsSub_of_isPrefixOf p.toList pre.toList

/-- Claim C1, witness for the amended theorem at a concrete input. -/
theorem c1_remove_ignored_amended_witness :
    ("ab" ∈ (Ign.RemoveIgnoredItems ["ab", "x"] "b").1) ∧
    (Ign.RemoveIgnoredItems ["ab", "x"] "b").2 = [] := by
  refine ⟨(c1_remove_ignored_amended ["ab", "x"] "b" "ab").1.mpr ⟨by decide, by decide⟩,
    (c1_remove_ignored_amended ["ab", "x"] "b" "ab").2.1⟩

/-! ## Claims C5 and C10: Register -/

/-- Claim C5, counterexample: the named-index duplicate check fires against
ANY existing entry, not only non-abstract non-composite ones.  Here the only
existing item under ("T", "a") is abstract, yet registering a non-abstract,
non-composite item with that (type, name) throws DuplicateDefinition. -/
theorem c5_counterexample :
    (Reg.Register Ex.stDup Ex.regNew).1.isSome = true ∧
    Ex.stDup.items.all (fun kv => kv.2.abstract) = true ∧
    Ex.regNew.abstract = false ∧ Ex.regNew.hasComposer = false := by
  decide

/-- Claim C5, amended: `Register(item)` throws DuplicateDefinition iff the
item takes the named-index path (it is abstract or its type has no name
composer) and ANY item — abstract or not — already occupies its (type, name)
key; the error carries the debug-info locations of the existing and of the
new declaration; a non-abstract item of a composer type is appended to the
unnamed list with no uniqueness check and never throws. -/
theorem c5_register_amended (st : Reg.Registry) (it : Reg.RegItem) :
    ((Reg.Register st it).1.isSome = true ↔
      ((it.abstract = true ∨ it.hasComposer = false) ∧
        (Reg.lookupNamed st it.typeName it.name).isSome = true)) ∧
    (∀ e, (Reg.Register st it).1 = some e →
      ∃ ex, Reg.lookupNamed st it.typeName it.name = some ex ∧
        e.existingInfo = ex.debugInfo ∧ e.newInfo = it.debugInfo) ∧
    (it.abstract = false → it.hasComposer = true →
      Reg.Register st it = (none, { st with unnamed := st.unnamed ++ [it] })) := by
  by_cases hb : (!it.abstract && it.hasComposer) = true
  · have habs : it.abstract = false := by
      cases h : it.abstract <;> simp [h] at hb ⊢
    have hcomp : it.hasComposer = true := by
      cases h : it.hasComposer <;> simp [h] at hb ⊢
    refine ⟨?_, ?_, ?_⟩
    · simp [Reg.Register, hb, habs, hcomp]
    · simp [Reg.Register, hb]
    · intro _ _; simp [Reg.Register, hb]
  · have hcase : it.abstract = true ∨ it.hasComposer = false := by
      cases h1 : it.abstract <;> cases h2 : it.hasComposer <;>
        simp [h1, h2] at hb ⊢
    refine ⟨?_, ?_, ?_⟩
    · rcases hfind : st.items.find?
          (fun kv => kv.1.1 == it.typeName && kv.1.2 == it.name) with _ | kv
      · simp [Reg.Register, hb, hfind, Reg.lookupNamed]
      · simp [Reg.Register, hb, hfind, Reg.lookupNamed, hcase]
    · intro e he
      rcases hfind : st.items.find?
          (fun kv => kv.1.1 == it.typeName && kv.1.2 == it.name) with _ | kv
      · simp [Reg.Register, hb, hfind] at he
      · simp [Reg.Register, hb, hfind] at he
        exact ⟨kv.2, by simp [Reg.lookupNamed, hfind], by simp [← he], by simp [← he]⟩
    · intro h1 h2
      exfalso
      rcases hcase with h | h
      · rw [h1] at h; exact Bool.noConfusion h
      · rw [h2] at h; exact Bool.noConfusion h

/-- Claim C5, witness for the amended theorem: the duplicate case at the
concrete registry, and the unnamed-append case for a composite item. -/
theorem c5_register_amended_witness :
    (Reg.Register Ex.stDup Ex.regNew).1.isSome = true ∧
    Reg.Register Ex.stDup Ex.regComp =
      (none, { Ex.stDup with unnamed := Ex.stDup.unnamed ++ [Ex.regComp] }) := by
  refine ⟨(c5_register_amended Ex.stDup Ex.regNew).1.mpr ⟨by decide, by decide⟩, ?_⟩
  exact (c5_register_amended Ex.stDup Ex.regComp).2.2 (by decide) (by decide)

/-- Claim C10: whenever `Register` throws DuplicateDefinition the registry is
returned unchanged — the throw happens before any insertion, so the failing
item lands in none of the indices and the existing entry stays as it was. -/
theorem c10_register_atomic (st : Reg.Registry) (it : Reg.RegItem)
    (e : Reg.RegError) (h : (Reg.Register st it).1 = some e) :
    (Reg.Register st it).2 = st ∧
    Reg.lookupNamed (Reg.Register st it).2 it.typeName it.name =
      Reg.lookupNamed st it.typeName it.name := by
  by_cases hb : (!it.abstract && it.hasComposer) = true
  · simp [Reg.Register, hb] at h
  · rcases hfind : st.items.find?
        (fun kv => kv.1.1 == it.typeName && kv.1.2 == it.name) with _ | kv
    · simp [Reg.Register, hb, hfind] at h
    · constructor
      · simp [Reg.Register, hb, hfind]
      · simp [Reg.Register, hb, hfind]

/-- Claim C10, witness at the concrete duplicate registration. -/
theorem c10_register_atomic_witness :
    (Reg.Register Ex.stDup Ex.regNew).1 =
      some ⟨Ex.di1, Ex.di2⟩ ∧
    (Reg.Register Ex.stDup Ex.regNew).2 = Ex.stDup := by
  refine ⟨by decide, (c10_register_atomic Ex.stDup Ex.regNew ⟨Ex.di1, Ex.di2⟩ (by decide)).1⟩

/-! ## Claim C8: abstract items produce no object -/

/-- Claim C8: for an abstract item of a valid type, `Commit` returns null
without instantiating, evaluating, validating, registering or persisting
anything, and leaves the item state untouched (for any discard flag and any
environment). -/
theorem c8_abstract_no_object (it : Cm.Item) (st : Cm.ItemSt) (env : Cm.Env)
    (discard : Bool) (ty : Cm.TypeDesc) (hty : it.itype = some ty)
    (hass : ty.assignable = true) (habs : it.abstract = true) :
    Cm.Commit it st env discard =
      ⟨Cm.CommitResult.ok none, st, [], [], []⟩ := by
  simp [Cm.Commit, hty, hass, habs]

/-- Claim C8, witness: an abstract variant of the sample item. -/
theorem c8_abstract_no_object_witness :
    ({ Ex.c2Item with abstract := true } : Cm.Item).abstract = true ∧
    Cm.Commit { Ex.c2Item with abstract := true } Ex.cSt0 Ex.c2Env false =
      ⟨Cm.CommitResult.ok none, Ex.cSt0, [], [], []⟩ := by
  exact ⟨rfl, c8_abstract_no_object _ Ex.cSt0 Ex.c2Env false Ex.tyT rfl rfl rfl⟩

/-! ## Claim C6: name composer handling in Commit -/

/-- Claim C6, counterexample: the object's short name is empty but the item's
name is "x", the type has a name composer, and `Commit` succeeds — it does
NOT fail with EmptyName; the empty short name merely falls back to the item
name as the composer input. -/
theorem c6_counterexample :
    Ex.cEnvEmptyShort.shortNameAfterEval = "" ∧
    Ex.tyC.hasComposer = true ∧
    (Cm.Commit Ex.cItemX Ex.cSt0 Ex.cEnvEmptyShort false).result ≠
      Cm.CommitResult.error Cm.CommitErr.emptyName ∧
    (∃ ob, (Cm.Commit Ex.cItemX Ex.cSt0 Ex.cEnvEmptyShort false).result =
      Cm.CommitResult.ok (some ob)) := by
  refine ⟨rfl, rfl, by decide, ⟨⟨7, "x", "", "z", "p", "object", Ex.cdi⟩, by decide⟩⟩

/-- Claim C6, amended: for a composer type (valid, non-abstract item, no
evaluation throw), `Commit` fails with EmptyName iff BOTH the object's short
name and the item's name are empty (an empty short name falls back to the
item name); it fails with NameComposerFailure when the composed name is
empty; and when the composed name differs from the input name the input is
stored as the object's short name and the composed name becomes the object's
name. -/
theorem c6_name_composer_amended (it : Cm.Item) (st : Cm.ItemSt) (env : Cm.Env)
    (discard : Bool) (ty : Cm.TypeDesc) (hty : it.itype = some ty)
    (hass : ty.assignable = true) (habs : it.abstract = false)
    (heval : env.evalThrows = false) (hcomp : ty.hasComposer = true) :
    ((Cm.Commit it st env discard).result =
        Cm.CommitResult.error Cm.CommitErr.emptyName ↔
      (env.shortNameAfterEval = "" ∧ it.name = "")) ∧
    (Cm.effectiveName env it ≠ "" → env.makeName (Cm.effectiveName env it) = "" →
      (Cm.Commit it st env discard).result =
        Cm.CommitResult.error Cm.CommitErr.nameComposerFailure) ∧
    (Cm.effectiveName env it ≠ "" →
      env.makeName (Cm.effectiveName env it) ≠ "" →
      env.makeName (Cm.effectiveName env it) ≠ Cm.effectiveName env it →
      env.validateThrows = false → env.onConfigLoadedThrows = false →
      ∃ ob, (Cm.Commit it st env discard).result = Cm.CommitResult.ok (some ob) ∧
        (Cm.Commit it st env discard).st.obj = some ob ∧
        ob.shortName = Cm.effectiveName env it ∧
        ob.name = env.makeName (Cm.effectiveName env it)) := by
  have heffempty : Cm.effectiveName env it = "" ↔
      (env.shortNameAfterEval = "" ∧ it.name = "") := by
    unfold Cm.effectiveName
    by_cases hs : env.shortNameAfterEval = ""
    · simp [hs]
    · simp [hs]
  refine ⟨?_, ?_, ?_⟩
  · by_cases heff : Cm.effectiveName env it = ""
    · rw [← heffempty]
      simp [Cm.Commit, hty, hass, habs, heval, hcomp, heff]
    · rw [← heffempty]
      by_cases hmk : env.makeName (Cm.effectiveName env it) = ""
      · simp [Cm.Commit, hty, hass, habs, heval, hcomp, heff, hmk]
      · by_cases hval : env.validateThrows = true <;>
          by_cases hocl : env.onConfigLoadedThrows = true <;>
          by_cases hig : it.ignoreOnError = true <;>
          simp [Cm.Commit, hty, hass, habs, heval, hcomp, heff, hmk, hval, hocl, hig]
  · intro heff hmk
    simp [Cm.Commit, hty, hass, habs, heval, hcomp, heff, hmk]
  · intro heff hmk hne hval hocl
    by_cases hs : env.shortNameAfterEval = ""
    · have hmk2 : ¬ env.makeName it.name = "" := by
        simpa [Cm.effectiveName, hs] using hmk
      have hne2 : ¬ env.makeName it.name = it.name := by
        simpa [Cm.effectiveName, hs] using hne
      have heff2 : ¬ it.name = "" := by
        simpa [Cm.effectiveName, hs] using heff
      refine ⟨⟨env.freshId, env.makeName it.name, it.name,
          it.zone, it.package, it.creationType, it.debugInfo⟩, ?_, ?_, ?_, ?_⟩ <;>
        simp [Cm.Commit, hty, hass, habs, heval, hcomp, hs, hmk2, hne2, heff2,
          hval, hocl, Cm.effectiveName]
    · have hmk2 : ¬ env.makeName env.shortNameAfterEval = "" := by
        simpa [Cm.effectiveName, hs] using hmk
      have hne2 : ¬ env.makeName env.shortNameAfterEval = env.shortNameAfterEval := by
        simpa [Cm.effectiveName, hs] using hne
      refine ⟨⟨env.freshId, env.makeName env.shortNameAfterEval, env.shortNameAfterEval,
          it.zone, it.package, it.creationType, it.debugInfo⟩, ?_, ?_, ?_, ?_⟩ <;>
        simp [Cm.Commit, hty, hass, habs, heval, hcomp, hs, hmk2, hne2,
          hval, hocl, Cm.effectiveName]

/-- Claim C6, witness: composed name "C!x" differs from input "x"; the input
becomes the short name and the composed name the object name. -/
theorem c6_name_composer_amended_witness :
    ((Cm.Commit Ex.cItemX Ex.cSt0
        { Ex.cEnvEmptyShort with makeName := fun s => "C!" ++ s } false).result =
      Cm.CommitResult.ok (some ⟨7, "C!x", "x", "z", "p", "object", Ex.cdi⟩)) := by
  have h := (c6_name_composer_amended Ex.cItemX Ex.cSt0
      { Ex.cEnvEmptyShort with makeName := fun s => "C!" ++ s } false Ex.tyC
      rfl rfl rfl rfl rfl).2.2 (by decide) (by decide) (by decide) rfl rfl
  rcases h with ⟨ob, h1, _, h3, h4⟩
  have : ob = ⟨7, "C!x", "x", "z", "p", "object", Ex.cdi⟩ := by
    have h5 : (Cm.Commit Ex.cItemX Ex.cSt0
        { Ex.cEnvEmptyShort with makeName := fun s => "C!" ++ s } false).result =
        Cm.CommitResult.ok (some ⟨7, "C!x", "x", "z", "p", "object", Ex.cdi⟩) := by
      decide
    rw [h5] at h1
    cases h1; rfl
  rw [← this]; exact h1

/-! ## Claim C2: Commit is not idempotent per item -/

/-- Claim C2, counterexample: `Commit` has no guard on an already-attached
object.  On an item whose object (id 5) is attached, a second `Commit`
instantiates a fresh object (the environment hands out id 9), registers it,
and replaces the attachment — it is not a no-op. -/
theorem c2_counterexample :
    Ex.c2StCommitted.obj = some Ex.c2OldObj ∧
    (Cm.Commit Ex.c2Item Ex.c2StCommitted Ex.c2Env false).registered = [9] ∧
    (Cm.Commit Ex.c2Item Ex.c2StCommitted Ex.c2Env false).st.obj ≠
      some Ex.c2OldObj := by
  decide

/-- Claim C2, amended: `Commit` itself performs no idempotence check — on any
item state (in particular one with an object already attached) a successful
run instantiates a fresh object carrying the environment's new id, registers
it and overwrites the attachment.  Per-item idempotence holds only at the
pipeline level: `CommitNewItems` never selects an item whose object is
attached as a commit candidate. -/
theorem c2_commit_not_idempotent_amended (it : Cm.Item) (st : Cm.ItemSt)
    (env : Cm.Env) (d : Bool) (ty : Cm.TypeDesc) (hty : it.itype = some ty)
    (hass : ty.assignable = true) (habs : it.abstract = false)
    (heval : env.evalThrows = false) (hcomp : ty.hasComposer = false)
    (hval : env.validateThrows = false) (hocl : env.onConfigLoadedThrows = false) :
    (∃ ob, (Cm.Commit it st env d).result = Cm.CommitResult.ok (some ob) ∧
      ob.oid = env.freshId ∧
      (Cm.Commit it st env d).st.obj = some ob ∧
      (Cm.Commit it st env d).registered = [env.freshId]) ∧
    (∀ ctx s p, p ∈ (CN.collectCandidates ctx s).1 →
      s.objects.contains p.1.id = false) := by
  constructor
  · by_cases hs : env.shortNameAfterEval = ""
    · refine ⟨⟨env.freshId, it.name, "", it.zone, it.package, it.creationType,
        it.debugInfo⟩, ?_, rfl, ?_, ?_⟩ <;>
        simp [Cm.Commit, hty, hass, habs, heval, hcomp, hs, hval, hocl,
          Cm.effectiveName]
    · refine ⟨⟨env.freshId, env.shortNameAfterEval, "", it.zone, it.package,
        it.creationType, it.debugInfo⟩, ?_, rfl, ?_, ?_⟩ <;>
        simp [Cm.Commit, hty, hass, habs, heval, hcomp, hs, hval, hocl,
          Cm.effectiveName]
  · intro ctx s p hp
    simp only [CN.collectCandidates, List.mem_append, List.mem_map] at hp
    rcases hp with ⟨q, hq, hqe⟩ | ⟨q, hq, hqe⟩ <;>
    · rw [List.mem_filter] at hq
      rcases hq with ⟨_, hpred⟩
      cases hqe
      cases hobj : s.objects.contains q.id
      · rfl
      · rw [hobj] at hpred
        simp at hpred

/-- Claim C2, witness for the amended theorem at the concrete already
committed item. -/
theorem c2_commit_not_idempotent_amended_witness :
    (Cm.Commit Ex.c2Item Ex.c2StCommitted Ex.c2Env false).registered = [9] := by
  have h := c2_commit_not_idempotent_amended Ex.c2Item Ex.c2StCommitted Ex.c2Env
    false Ex.tyT rfl rfl rfl rfl rfl rfl rfl
  rcases h.1 with ⟨ob, _, _, _, hreg⟩
  exact hreg

/-! ## Claim C4: reload failure restores the snapshot -/

/-- Claim C4: when the rebuild phase of `ReloadObject` throws, the restore
walk runs with `recoverApply = true`, so EVERY deleted entry without a newly
created object of its (type, name) — apply-rule-generated ones included — is
re-inserted by the exact step sequence (reset deletion marker, re-register
the item when present, `OnConfigLoaded`, `Register`, `OnAllConfigLoaded`,
`PreActivate`, `Activate(true)`), and the exception is re-thrown. -/
theorem c4_reload_failure_restores (deleted : List Reload.DeletedObjectInfo)
    (e : String) (newExists : String → String → Bool)
    (doi : Reload.DeletedObjectInfo) (hmem : doi ∈ deleted)
    (hnew : newExists doi.object.typeName doi.object.name = false) :
    (Reload.ReloadObject deleted (some e) newExists).1 = some e ∧
    (Reload.ReloadObject deleted (some e) newExists).2 =
      Reload.RestoreObjectsHelper deleted true newExists ∧
    Reload.restoreOne newExists true doi =
      [Reload.RStep.resetDeletedMarker doi.object.oid] ++
        (if doi.item.isSome then [Reload.RStep.registerItem doi.object.oid] else []) ++
        [Reload.RStep.onConfigLoaded doi.object.oid,
          Reload.RStep.registerObject doi.object.oid,
          Reload.RStep.onAllConfigLoaded doi.object.oid,
          Reload.RStep.preActivate doi.object.oid,
          Reload.RStep.activate doi.object.oid true] ∧
    (∀ s ∈ Reload.restoreOne newExists true doi,
      s ∈ (Reload.ReloadObject deleted (some e) newExists).2) := by
  refine ⟨rfl, rfl, ?_, ?_⟩
  · simp [Reload.restoreOne, hnew]
  · intro s hs
    show s ∈ Reload.RestoreObjectsHelper deleted true newExists
    unfold Reload.RestoreObjectsHelper
    exact List.mem_flatMap.mpr ⟨doi, hmem, hs⟩

/-- Claim C4, witness: an apply-rule-generated deleted object (creation type
"apply", item recorded) is fully re-inserted when the rebuild throws. -/
theorem c4_reload_failure_restores_witness :
    (Reload.ReloadObject [Ex.rDoi1, Ex.rDoi2] (some "boom") Ex.rNoNew).1 =
      some "boom" ∧
    Reload.restoreOne Ex.rNoNew true Ex.rDoi1 =
      [Reload.RStep.resetDeletedMarker 10, Reload.RStep.registerItem 10,
        Reload.RStep.onConfigLoaded 10, Reload.RStep.registerObject 10,
        Reload.RStep.onAllConfigLoaded 10, Reload.RStep.preActivate 10,
        Reload.RStep.activate 10 true] := by
  have h := c4_reload_failure_restores [Ex.rDoi1, Ex.rDoi2] "boom" Ex.rNoNew
    Ex.rDoi1 (by decide) rfl
  exact ⟨h.1, by rw [h.2.2.1]; rfl⟩

/-! ## Claim C7: CommitItems failure unregisters the collected items -/

namespace Reg

theorem find?_ext {α : Type} (l : List α) (p q : α → Bool) (h : ∀ a, p a = q a) :
    l.find? p = l.find? q := by
  induction l with
  | nil => rfl
  | cons a t ih =>
      by_cases hq : q a = true
      · rw [List.find?_cons_of_pos _ (by rw [h a]; exact hq),
          List.find?_cons_of_pos _ hq]
      · rw [List.find?_cons_of_neg _ (by rw [h a]; exact hq),
          List.find?_cons_of_neg _ hq, ih]

theorem Unregister_items (st : Registry) (x : RegItem) :
    (Unregister st x).items =
      st.items.filter (fun kv => !(kv.1.1 == x.typeName && kv.1.2 == x.name)) := by
  simp only [Unregister]
  split <;> rfl

theorem Unregister_defaults (st : Registry) (x : RegItem) :
    (Unregister st x).defaultTemplates =
      st.defaultTemplates.filter
        (fun kv => !(kv.1.1 == x.typeName && kv.1.2 == x.name)) := by
  simp only [Unregister]
  split <;> rfl

theorem Unregister_unnamed (st : Registry) (x : RegItem) :
    (Unregister st x).unnamed = st.unnamed.filter (fun y => y.id != x.id) := by
  simp only [Unregister]
  split <;> rfl

theorem lookupNamed_none_of (st : Registry) (ty nm : String)
    (h : ∀ kv ∈ st.items, (kv.1.1 == ty && kv.1.2 == nm) = false) :
    lookupNamed st ty nm = none := by
  unfold lookupNamed
  rw [List.find?_eq_none.mpr (fun x hx => by simp [h x hx])]
  rfl

theorem lookupNamed_none_forall (st : Registry) (ty nm : String)
    (h : lookupNamed st ty nm = none) :
    ∀ kv ∈ st.items, (kv.1.1 == ty && kv.1.2 == nm) = false := by
  unfold lookupNamed at h
  rcases hf : st.items.find? (fun kv => kv.1.1 == ty && kv.1.2 == nm) with _ | kv
  · intro kv hkv
    have := List.find?_eq_none.mp hf kv hkv
    simpa using this
  · rw [hf] at h
    simp at h

theorem lookupDefault_none_of (st : Registry) (ty nm : String)
    (h : ∀ kv ∈ st.defaultTemplates, (kv.1.1 == ty && kv.1.2 == nm) = false) :
    lookupDefault st ty nm = none := by
  unfold lookupDefault
  rw [List.find?_eq_none.mpr (fun x hx => by simp [h x hx])]
  rfl

theorem lookupDefault_none_forall (st : Registry) (ty nm : String)
    (h : lookupDefault st ty nm = none) :
    ∀ kv ∈ st.defaultTemplates, (kv.1.1 == ty && kv.1.2 == nm) = false := by
  unfold lookupDefault at h
  rcases hf : st.defaultTemplates.find? (fun kv => kv.1.1 == ty && kv.1.2 == nm)
      with _ | kv
  · intro kv hkv
    have := List.find?_eq_none.mp hf kv hkv
    simpa using this
  · rw [hf] at h
    simp at h

theorem lookupAttached_none_of (st : Registry) (i : Nat)
    (h : ∀ q ∈ st.attached, (q.1 == i) = false) : lookupAttached st i = none := by
  unfold lookupAttached
  rw [List.find?_eq_none.mpr (fun x hx => by simp [h x hx])]
  rfl

theorem lookupAttached_none_forall (st : Registry) (i : Nat)
    (h : lookupAttached st i = none) : ∀ q ∈ st.attached, (q.1 == i) = false := by
  unfold lookupAttached at h
  rcases hf : st.attached.find? (fun q => q.1 == i) with _ | q
  · intro q hq
    have := List.find?_eq_none.mp hf q hq
    simpa using this
  · rw [hf] at h
    simp at h

theorem Unregister_attached_sub (st : Registry) (x : RegItem) (q : Nat × Nat)
    (h : q ∈ (Unregister st x).attached) : q ∈ st.attached := by
  revert h
  simp only [Unregister]
  split
  · intro h
    exact (List.mem_filter.mp h).1
  · intro h
    exact h

theorem Unregister_named_kill (st : Registry) (x : RegItem) :
    lookupNamed (Unregister st x) x.typeName x.name = none := by
  apply lookupNamed_none_of
  rw [Unregister_items]
  intro kv hkv
  have := (List.mem_filter.mp hkv).2
  cases hm : (kv.1.1 == x.typeName && kv.1.2 == x.name)
  · rfl
  · rw [hm] at this
    simp at this

theorem Unregister_default_kill (st : Registry) (x : RegItem) :
    lookupDefault (Unregister st x) x.typeName x.name = none := by
  apply lookupDefault_none_of
  rw [Unregister_defaults]
  intro kv hkv
  have := (List.mem_filter.mp hkv).2
  cases hm : (kv.1.1 == x.typeName && kv.1.2 == x.name)
  · rfl
  · rw [hm] at this
    simp at this

theorem Unregister_unnamed_kill (st : Registry) (x : RegItem) :
    ∀ y ∈ (Unregister st x).unnamed, y.id ≠ x.id := by
  intro y hy
  rw [Unregister_unnamed] at hy
  have := (List.mem_filter.mp hy).2
  simpa using this

theorem Unregister_attached_kill (st : Registry) (x : RegItem) :
    lookupAttached (Unregister st x) x.id = none := by
  apply lookupAttached_none_of
  intro q hq
  revert hq
  simp only [Unregister]
  split
  · intro hq
    have h2 := (List.mem_filter.mp hq).2
    simpa [bne] using h2
  · intro hq
    rename_i heq
    have h2 := List.find?_eq_none.mp heq q hq
    simpa using h2

theorem Unregister_live_sub (st : Registry) (x : RegItem) (o : Nat)
    (h : o ∈ (Unregister st x).liveObjects) : o ∈ st.liveObjects := by
  revert h
  simp only [Unregister]
  split
  · intro h
    exact (List.mem_filter.mp h).1
  · intro h
    exact h

theorem Unregister_live_kill (st : Registry) (x : RegItem) (o : Nat)
    (h : lookupAttached st x.id = some o) : o ∉ (Unregister st x).liveObjects := by
  unfold lookupAttached at h
  rcases hf : st.attached.find? (fun p => p.1 == x.id) with _ | p
  · rw [hf] at h
    simp at h
  · rw [hf] at h
    have hpo : p.2 = o := by simpa using h
    intro hmem
    revert hmem
    simp only [Unregister, hf]
    intro hmem
    have h2 := (List.mem_filter.mp hmem).2
    rw [hpo] at h2
    simp at h2

theorem Unregister_attached_other (st : Registry) (x : RegItem) (i : Nat)
    (hne : i ≠ x.id) :
    lookupAttached (Unregister st x) i = lookupAttached st i := by
  unfold lookupAttached
  have hatt : (Unregister st x).attached =
      (match st.attached.find? (fun p => p.1 == x.id) with
        | some _ => st.attached.filter (fun q => q.1 != x.id)
        | none => st.attached) := by
    simp only [Unregister]
    split <;> rfl
  rw [hatt]
  rcases hf : st.attached.find? (fun p => p.1 == x.id) with _ | p
  · rw [hf]
  · rw [hf]
    rw [List.find?_filter]
    apply congrArg
    apply find?_ext
    intro q
    cases hq : (q.1 == i)
    · simp [hq]
    · have hqi : q.1 = i := by simpa using hq
      have hne2 : (q.1 != x.id) = true := by
        rw [hqi]
        simpa using hne
      simp [hq, hne2]

theorem fold_named_none (l : List RegItem) (s : Registry) (ty nm : String)
    (h : lookupNamed s ty nm = none) :
    lookupNamed (l.foldl Unregister s) ty nm = none := by
  induction l generalizing s with
  | nil => exact h
  | cons a t ih =>
      rw [List.foldl_cons]
      apply ih
      apply lookupNamed_none_of
      rw [Unregister_items]
      intro kv hkv
      exact lookupNamed_none_forall s ty nm h kv (List.mem_filter.mp hkv).1

theorem fold_default_none (l : List RegItem) (s : Registry) (ty nm : String)
    (h : lookupDefault s ty nm = none) :
    lookupDefault (l.foldl Unregister s) ty nm = none := by
  induction l generalizing s with
  | nil => exact h
  | cons a t ih =>
      rw [List.foldl_cons]
      apply ih
      apply lookupDefault_none_of
      rw [Unregister_defaults]
      intro kv hkv
      exact lookupDefault_none_forall s ty nm h kv (List.mem_filter.mp hkv).1

theorem fold_unnamed_avoid (l : List RegItem) (s : Registry) (i : Nat)
    (h : ∀ y ∈ s.unnamed, y.id ≠ i) :
    ∀ y ∈ (l.foldl Unregister s).unnamed, y.id ≠ i := by
  induction l generalizing s with
  | nil => exact h
  | cons a t ih =>
      rw [List.foldl_cons]
      apply ih
      intro y hy
      rw [Unregister_unnamed] at hy
      exact h y (List.mem_filter.mp hy).1

theorem fold_attached_none (l : List RegItem) (s : Registry) (i : Nat)
    (h : lookupAttached s i = none) :
    lookupAttached (l.foldl Unregister s) i = none := by
  induction l generalizing s with
  | nil => exact h
  | cons a t ih =>
      rw [List.foldl_cons]
      apply ih
      apply lookupAttached_none_of
      intro q hq
      exact lookupAttached_none_forall s i h q (Unregister_attached_sub s a q hq)

theorem fold_live_avoid (l : List RegItem) (s : Registry) (o : Nat)
    (h : o ∉ s.liveObjects) : o ∉ (l.foldl Unregister s).liveObjects := by
  induction l generalizing s with
  | nil => exact h
  | cons a t ih =>
      rw [List.foldl_cons]
      apply ih
      intro hmem
      exact h (Unregister_live_sub s a o hmem)

end Reg

/-- Claim C7: when `CommitNewItems` fails inside `CommitItems`, every item it
collected into `newItems` is unregistered — its (type, name) key is gone from
the named and default-template indices, it is gone from the unnamed list, its
object attachment is cleared and the previously attached object is
unregistered from the live set — and `CommitItems` returns false.  The item
ids are pairwise distinct (items are distinct objects). -/
theorem c7_commit_failure_unregisters (newItems : List Reg.RegItem)
    (st : Reg.Registry) (hids : (newItems.map (fun it => it.id)).Nodup) :
    (Reg.CommitItems false newItems st).1 = false ∧
    ∀ it ∈ newItems,
      Reg.lookupNamed (Reg.CommitItems false newItems st).2 it.typeName it.name =
        none ∧
      Reg.lookupDefault (Reg.CommitItems false newItems st).2 it.typeName it.name =
        none ∧
      (∀ x ∈ (Reg.CommitItems false newItems st).2.unnamed, x.id ≠ it.id) ∧
      Reg.lookupAttached (Reg.CommitItems false newItems st).2 it.id = none ∧
      (∀ o, Reg.lookupAttached st it.id = some o →
        o ∉ (Reg.CommitItems false newItems st).2.liveObjects) := by
  refine ⟨rfl, ?_⟩
  show ∀ it ∈ newItems,
      Reg.lookupNamed (newItems.foldl Reg.Unregister st) it.typeName it.name = none ∧
      Reg.lookupDefault (newItems.foldl Reg.Unregister st) it.typeName it.name = none ∧
      (∀ x ∈ (newItems.foldl Reg.Unregister st).unnamed, x.id ≠ it.id) ∧
      Reg.lookupAttached (newItems.foldl Reg.Unregister st) it.id = none ∧
      (∀ o, Reg.lookupAttached st it.id = some o →
        o ∉ (newItems.foldl Reg.Unregister st).liveObjects)
  induction newItems generalizing st with
  | nil => intro it hit; cases hit
  | cons a t ih =>
      intro it hit
      rw [List.map_cons, List.nodup_cons] at hids
      rcases List.mem_cons.mp hit with rfl | hmem
      · rw [List.foldl_cons]
        refine ⟨Reg.fold_named_none t _ _ _ (Reg.Unregister_named_kill st it),
          Reg.fold_default_none t _ _ _ (Reg.Unregister_default_kill st it),
          Reg.fold_unnamed_avoid t _ _ (Reg.Unregister_unnamed_kill st it),
          Reg.fold_attached_none t _ _ (Reg.Unregister_attached_kill st it), ?_⟩
        intro o ho
        exact Reg.fold_live_avoid t _ o (Reg.Unregister_live_kill st it o ho)
      · have hne : it.id ≠ a.id := by
          intro he
          exact hids.1 (List.mem_map.mpr ⟨it, hmem, he⟩)
        rw [List.foldl_cons]
        have hres := ih (Reg.Unregister st a) hids.2 it hmem
        refine ⟨hres.1, hres.2.1, hres.2.2.1, hres.2.2.2.1, ?_⟩
        intro o ho
        apply hres.2.2.2.2 o
        rw [Reg.Unregister_attached_other st a it.id hne]
        exact ho

/-- Claim C7, witness at a concrete registry with a named default-template
item and an unnamed item, both with attached objects. -/
theorem c7_commit_failure_unregisters_witness :
    (Reg.CommitItems false [Ex.itemU1, Ex.itemU2] Ex.stC7).1 = false ∧
    Reg.lookupNamed (Reg.CommitItems false [Ex.itemU1, Ex.itemU2] Ex.stC7).2
      "T" "u1" = none ∧
    Reg.lookupAttached (Reg.CommitItems false [Ex.itemU1, Ex.itemU2] Ex.stC7).2
      3 = none := by
  have h := c7_commit_failure_unregisters [Ex.itemU1, Ex.itemU2] Ex.stC7 (by decide)
  have h1 := h.2 Ex.itemU1 (by decide)
  exact ⟨h.1, h1.1, h1.2.2.2.1⟩

/-! ## Claim C9: CommitNewItems return value vs work-queue exceptions -/

namespace CN

/-- Candidate collection does not touch the exception flag. -/
theorem collect_snd_hasExn (ctx : Nat) (st : St) :
    ((collectCandidates ctx st).2).hasExn = st.hasExn := rfl

/-- A single commit task can only raise the exception flag, never clear it. -/
theorem commitStep_exn_mono (env : Env) (st : St) (p : CItem × Bool)
    (h : st.hasExn = true) : (commitStep env st p).hasExn = true := by
  unfold commitStep
  rcases ho : env.commitOutcome p.1.id <;> first | rfl | exact h

/-- The commit barrier can only raise the exception flag, never clear it. -/
theorem runCommits_exn_mono (env : Env) (cs : List (CItem × Bool)) (st : St)
    (h : st.hasExn = true) : (runCommits env cs st).hasExn = true := by
  induction cs generalizing st with
  | nil => exact h
  | cons p t ih =>
      show (List.foldl (commitStep env) (commitStep env st p) t).hasExn = true
      exact ih (commitStep env st p) (commitStep_exn_mono env st p h)

/-- The return-value specification threaded through the recursion: a call that
returns true leaves the exception flag as it found it, and a call that
returns false has observed an exception. -/
def RSpec (rec : St → Option Bool × St) : Prop :=
  ∀ s r s2, rec s = (r, s2) →
    ((r = some true → s2.hasExn = s.hasExn) ∧ (r = some false → s2.hasExn = true))

theorem processType_rspec (rec : St → Option Bool × St) (env : Env) (t : TyDesc)
    (items : List (CItem × Bool)) (completed : List String) (st : St)
    (hrec : RSpec rec) (h0 : st.hasExn = false) :
    (∀ r s, processType rec env t items completed st = PassRes.abort r s →
      (r = some true → s.hasExn = false) ∧ (r = some false → s.hasExn = true)) ∧
    (∀ c s, processType rec env t items completed st = PassRes.done c s →
      s.hasExn = false) := by
  unfold processType
  by_cases h1 : (oaclPhase env t items st).hasExn = true
  · rw [if_pos h1]
    constructor
    · intro r s h
      cases h
      exact ⟨fun hh => absurd hh (by decide), fun _ => h1⟩
    · intro c s h
      cases h
  · rw [if_neg h1]
    by_cases h2 : (childPhase env t items (oaclPhase env t items st)).hasExn = true
    · rw [if_pos h2]
      constructor
      · intro r s h
        cases h
        exact ⟨fun hh => absurd hh (by decide), fun _ => h2⟩
      · intro c s h
        cases h
    · rw [if_neg h2]
      rcases hr2 : rec (childPhase env t items (oaclPhase env t items st))
        with ⟨r3, st3⟩
      have hspec := hrec _ _ _ hr2
      rcases r3 with _ | b
      · constructor
        · intro r s h
          cases h
          exact ⟨fun hh => absurd hh (by decide), fun hh => absurd hh (by decide)⟩
        · intro c s h
          cases h
      · cases b
        · constructor
          · intro r s h
            cases h
            exact ⟨fun hh => absurd hh (by decide), fun _ => hspec.2 rfl⟩
          · intro c s h
            cases h
        · constructor
          · intro r s h
            cases h
          · intro c s h
            cases h
            rw [hspec.1 rfl]
            exact eq_false_of_ne_true h2

theorem typePass_rspec (rec : St → Option Bool × St) (env : Env)
    (types : List TyDesc) (pending : List TyDesc) (completed : List String)
    (items : List (CItem × Bool)) (st : St)
    (hrec : RSpec rec) (h0 : st.hasExn = false) :
    (∀ r s, typePass rec env types pending completed items st = PassRes.abort r s →
      (r = some true → s.hasExn = false) ∧ (r = some false → s.hasExn = true)) ∧
    (∀ c s, typePass rec env types pending completed items st = PassRes.done c s →
      s.hasExn = false) := by
  induction pending generalizing completed st with
  | nil =>
      constructor
      · intro r s h
        cases h
      · intro c s h
        cases h
        exact h0
  | cons t rest ih =>
      unfold typePass
      by_cases hc : completed.contains t.name = true
      · rw [if_pos hc]
        exact ih completed st h0
      · rw [if_neg hc]
        by_cases hu : unresolvedDep env types completed t = true
        · rw [if_pos hu]
          exact ih completed st h0
        · rw [if_neg hu]
          have hp := processType_rspec rec env t items completed st hrec h0
          rcases hpt : processType rec env t items completed st with ⟨r1, s1⟩ | ⟨c1, s1⟩
          · constructor
            · intro r s h
              cases h
              exact hp.1 r1 s1 hpt
            · intro c s h
              cases h
          · have hs1 := hp.2 c1 s1 hpt
            exact ih c1 s1 hs1

theorem whileLoop_rspec (rec : St → Option Bool × St) (env : Env)
    (types : List TyDesc) (items : List (CItem × Bool)) (wf : Nat)
    (completed : List String) (st : St)
    (hrec : RSpec rec) (h0 : st.hasExn = false) :
    ∀ r s2, whileLoop rec env types items wf completed st = (r, s2) →
      (r = some true → s2.hasExn = false) ∧ (r = some false → s2.hasExn = true) := by
  induction wf generalizing completed st with
  | zero =>
      intro r s2 h
      unfold whileLoop at h
      cases h
      exact ⟨fun hh => absurd hh (by decide), fun hh => absurd hh (by decide)⟩
  | succ wf ih =>
      intro r s2 h
      unfold whileLoop at h
      by_cases hlen : (types.length == completed.length) = true
      · rw [if_pos hlen] at h
        cases h
        exact ⟨fun _ => h0, fun hh => absurd hh (by decide)⟩
      · rw [if_neg hlen] at h
        have htp := typePass_rspec rec env types types completed items st hrec h0
        rcases hpt : typePass rec env types types completed items st
          with ⟨r1, s1⟩ | ⟨c1, s1⟩
        · rw [hpt] at h
          cases h
          exact htp.1 _ _ hpt
        · rw [hpt] at h
          exact ih c1 s1 (htp.2 c1 s1 hpt) r s2 h

theorem commitNewItems_rspec (env : Env) (ctx : Nat) (f : Nat) :
    RSpec (fun s => commitNewItems env ctx f s) := by
  induction f with
  | zero =>
      intro s r s2 h
      unfold commitNewItems at h
      cases h
      exact ⟨fun hh => absurd hh (by decide), fun hh => absurd hh (by decide)⟩
  | succ f ih =>
      intro s r s2 h
      unfold commitNewItems at h
      by_cases hemp : (collectCandidates ctx s).1.isEmpty = true
      · rw [if_pos hemp] at h
        cases h
        exact ⟨fun _ => collect_snd_hasExn ctx s,
          fun hh => absurd hh (by decide)⟩
      · rw [if_neg hemp] at h
        by_cases hexn :
            (runCommits env (collectCandidates ctx s).1 (collectCandidates ctx s).2).hasExn = true
        · rw [if_pos hexn] at h
          cases h
          exact ⟨fun hh => absurd hh (by decide), fun _ => hexn⟩
        · rw [if_neg hexn] at h
          have hw := whileLoop_rspec (fun s3 => commitNewItems env ctx f s3) env
            (typesOf env) (collectCandidates ctx s).1 (f + 1) []
            (runCommits env (collectCandidates ctx s).1 (collectCandidates ctx s).2)
            ih (eq_false_of_ne_true hexn) r s2 h
          have hs0 : s.hasExn = false := by
            cases hv : s.hasExn
            · rfl
            · exfalso
              apply hexn
              exact runCommits_exn_mono env _ _ (by rw [collect_snd_hasExn]; exact hv)
          refine ⟨fun hh => ?_, hw.2⟩
          rw [hs0]
          exact hw.1 hh

end CN

/-- Claim C9: starting from a clean work queue, a completed `CommitNewItems`
run returns true iff no work-queue exception was observed at any join during
the call (recursive re-entries included; the flag records every task throw
and each join checks it), and when the candidate set for the activation
context is empty it returns true immediately. -/
theorem c9_commitnewitems_return (env : CN.Env) (ctx : Nat) (f : Nat)
    (st : CN.St) (b : Bool) (st2 : CN.St) (h0 : st.hasExn = false) :
    (CN.commitNewItems env ctx f st = (some b, st2) →
      (b = true ↔ st2.hasExn = false)) ∧
    ((CN.collectCandidates ctx st).1 = [] → 0 < f →
      (CN.commitNewItems env ctx f st).1 = some true) := by
  constructor
  · intro h
    have hspec := CN.commitNewItems_rspec env ctx f st (some b) st2 h
    constructor
    · intro hb
      rw [hb] at hspec
      rw [hspec.1 rfl]
      exact h0
    · intro hexn
      cases b
      · rw [hspec.2 rfl] at hexn
        cases hexn
      · rfl
  · intro hemp hf
    rcases f with _ | f
    · cases hf
    · unfold CN.commitNewItems
      rw [if_pos (by rw [hemp]; rfl)]

/-- Claim C9, witness: the flag starts clean, and under activation context 1
(no matching items, empty candidate set) the call returns true immediately. -/
theorem c9_commitnewitems_return_witness :
    Ex.cnStW.hasExn = false ∧
    (CN.commitNewItems Ex.cnEnvW 1 5 Ex.cnStW).1 = some true := by
  refine ⟨rfl, ?_⟩
  exact (c9_commitnewitems_return Ex.cnEnvW 1 5 Ex.cnStW true
    (CN.commitNewItems Ex.cnEnvW 1 5 Ex.cnStW).2 rfl).2 (by decide) (by decide)

/-! ## Claim C3: load-dependency ordering of OnAllConfigLoaded

Infrastructure: positions in the completion order, the before relation, and
the trace-ordering predicate. -/

namespace CN

/-- Position of the first occurrence of a name in the completion list. -/
def posOf : List String → String → Nat
  | [], _ => 0
  | a :: l, x => if a = x then 0 else posOf l x + 1

theorem posOf_lt_length (l : List String) (x : String) (h : x ∈ l) :
    posOf l x < l.length := by
  induction l with
  | nil => cases h
  | cons a t ih =>
      by_cases ha : a = x
      · simp [posOf, ha]
      · rcases List.mem_cons.mp h with he | hm
        · exact absurd he.symm ha
        · simp only [posOf, if_neg ha, List.length_cons]
          exact Nat.succ_lt_succ (ih hm)

theorem posOf_append_left (l l2 : List String) (x : String) (h : x ∈ l) :
    posOf (l ++ l2) x = posOf l x := by
  induction l with
  | nil => cases h
  | cons a t ih =>
      by_cases ha : a = x
      · simp [posOf, ha]
      · rcases List.mem_cons.mp h with he | hm
        · exact absurd he.symm ha
        · simp only [List.cons_append, posOf, if_neg ha, List.append_eq]
          rw [ih hm]

theorem posOf_append_fresh (l : List String) (x : String) (h : x ∉ l) :
    posOf (l ++ [x]) x = l.length := by
  induction l with
  | nil => simp [posOf]
  | cons a t ih =>
      have ha : a ≠ x := fun he => h (he ▸ List.mem_cons_self a t)
      simp only [List.cons_append, posOf, if_neg ha, List.length_cons, List.append_eq]
      rw [ih (fun hm => h (List.mem_cons_of_mem a hm))]

/-- The name `b` was completed strictly before the name `a`. -/
def completedBefore (c : List String) (b a : String) : Prop :=
  b ∈ c ∧ a ∈ c ∧ posOf c b < posOf c a

theorem completedBefore_trans (c : List String) (x y z : String)
    (h1 : completedBefore c x y) (h2 : completedBefore c y z) :
    completedBefore c x z :=
  ⟨h1.1, h2.2.1, Nat.lt_trans h1.2.2 h2.2.2⟩

theorem completedBefore_append (c : List String) (l : List String) (b a : String)
    (h : completedBefore c b a) : completedBefore (c ++ l) b a := by
  refine ⟨List.mem_append_left l h.1, List.mem_append_left l h.2.1, ?_⟩
  rw [posOf_append_left c l b h.1, posOf_append_left c l a h.2.1]
  exact h.2.2

theorem completedBefore_new (c : List String) (b tn : String) (hb : b ∈ c)
    (hfresh : tn ∉ c) : completedBefore (c ++ [tn]) b tn := by
  refine ⟨List.mem_append_left _ hb, List.mem_append_right _ (List.mem_singleton.mpr rfl), ?_⟩
  rw [posOf_append_left c [tn] b hb, posOf_append_fresh c tn hfresh]
  exact posOf_lt_length c b hb

theorem completedBefore_fresh_first (c : List String) (tn a : String)
    (hfresh : tn ∉ c) (h : completedBefore (c ++ [tn]) tn a) : False := by
  rcases h with ⟨_, ha, hlt⟩
  rw [posOf_append_fresh c tn hfresh] at hlt
  rcases List.mem_append.mp ha with hac | hatn
  · rw [posOf_append_left c [tn] a hac] at hlt
    exact Nat.lt_irrefl _ (Nat.lt_trans (posOf_lt_length c a hac) hlt)
  · have : a = tn := List.mem_singleton.mp hatn
    subst this
    rw [posOf_append_fresh c a hfresh] at hlt
    exact Nat.lt_irrefl _ hlt

/-- Trace ordering: every `OnAllConfigLoaded` event of type `b` precedes every
`OnAllConfigLoaded` event of type `a`. -/
def orderedEvents (b a : String) (tr : List Ev) : Prop :=
  ∀ p q x y, tr.get? p = some (Ev.oacl x b) → tr.get? q = some (Ev.oacl y a) → p < q

theorem orderedEvents_append (b a : String) (tr ext : List Ev)
    (h : orderedEvents b a tr) (hext : ∀ e ∈ ext, ∀ x, e ≠ Ev.oacl x b) :
    orderedEvents b a (tr ++ ext) := by
  intro p q x y hp hq
  have hplen : p < tr.length := by
    by_contra hge
    have hge2 : tr.length ≤ p := Nat.le_of_not_lt hge
    rw [List.get?_append_right hge2] at hp
    exact hext _ (List.get?_mem hp) x rfl
  rw [List.get?_append hplen] at hp
  by_cases hqlen : q < tr.length
  · rw [List.get?_append hqlen] at hq
    exact h p q x y hp hq
  · exact Nat.lt_of_lt_of_le hplen (Nat.le_of_not_lt hqlen)

theorem orderedEvents_block (b tn : String) (tr ext : List Ev) (hb : b ≠ tn)
    (hold : ∀ x, Ev.oacl x tn ∉ tr)
    (hext : ∀ e ∈ ext, ∃ x, e = Ev.oacl x tn) :
    orderedEvents b tn (tr ++ ext) := by
  intro p q x y hp hq
  have hplen : p < tr.length := by
    by_contra hge
    have hge2 : tr.length ≤ p := Nat.le_of_not_lt hge
    rw [List.get?_append_right hge2] at hp
    rcases hext _ (List.get?_mem hp) with ⟨x2, he⟩
    injection he with h1 h2
    exact hb h2
  have hqlen : ¬ q < tr.length := by
    intro hqlt
    rw [List.get?_append hqlt] at hq
    exact hold y (List.get?_mem hq)
  exact Nat.lt_of_lt_of_le hplen (Nat.le_of_not_lt hqlen)

/-- Extension of the pairwise ordering invariant when a fresh type's event
block is appended to the trace. -/
theorem ordering_extend (c : List String) (tn : String) (tr ext : List Ev)
    (hfresh : tn ∉ c)
    (hD : ∀ x t2, Ev.oacl x t2 ∈ tr → t2 ∈ c)
    (hext : ∀ e ∈ ext, ∃ x, e = Ev.oacl x tn)
    (hF : ∀ b a, completedBefore c b a → orderedEvents b a tr) :
    ∀ b a, completedBefore (c ++ [tn]) b a → orderedEvents b a (tr ++ ext) := by
  intro b a hba
  by_cases hbt : b = tn
  · subst hbt
    exact absurd hba (fun h => completedBefore_fresh_first c b a hfresh h)
  · have hbc : b ∈ c := by
      rcases List.mem_append.mp hba.1 with h | h
      · exact h
      · exact absurd (List.mem_singleton.mp h) hbt
    by_cases hat : a = tn
    · subst hat
      apply orderedEvents_block b a tr ext hbt
      · intro x hx
        exact hfresh (hD x a hx)
      · exact hext
    · have hac : a ∈ c := by
        rcases List.mem_append.mp hba.2.1 with h | h
        · exact h
        · exact absurd (List.mem_singleton.mp h) hat
      have hcb : completedBefore c b a := by
        refine ⟨hbc, hac, ?_⟩
        have h1 := hba.2.2
        rw [posOf_append_left c [tn] b hbc, posOf_append_left c [tn] a hac] at h1
        exact h1
      apply orderedEvents_append b a tr ext (hF b a hcb)
      intro e he x
      rcases hext e he with ⟨x2, he2⟩
      rw [he2]
      intro hcon
      cases hcon
      exact hbt rfl

end CN

namespace CN

theorem contains_false_of_not_mem (i : Nat) (l : List Nat) (h : i ∉ l) :
    l.contains i = false := by
  cases hc : l.contains i
  · rfl
  · exact absurd (List.elem_iff.mp hc) h

theorem not_mem_of_contains_false (i : Nat) (l : List Nat)
    (h : l.contains i = false) : i ∉ l := by
  intro hm
  have h2 : l.contains i = true := List.elem_eq_true_of_mem hm
  rw [h2] at h
  cases h

/-- Core-state equality: every component except the ignored-paths list. -/
def sameCore (s s2 : St) : Prop :=
  s2.named = s.named ∧ s2.unnamed = s.unnamed ∧ s2.objects = s.objects ∧
  s2.trace = s.trace ∧ s2.hasExn = s.hasExn

theorem sameCore_refl (s : St) : sameCore s s := ⟨rfl, rfl, rfl, rfl, rfl⟩

theorem sameCore_trans {a b c : St} (h1 : sameCore a b) (h2 : sameCore b c) :
    sameCore a c :=
  ⟨h2.1.trans h1.1, h2.2.1.trans h1.2.1, h2.2.2.1.trans h1.2.2.1,
    h2.2.2.2.1.trans h1.2.2.2.1, h2.2.2.2.2.trans h1.2.2.2.2⟩

/-- Quiescent precondition: every uncommitted non-abstract named item of the
context has the ignored commit outcome (it was already tried and skipped). -/
def uncommittedIgnored (env : Env) (ctx : Nat) (st : St) : Prop :=
  ∀ it ∈ st.named, it.ctx = ctx → it.abstract = false →
    it.id ∉ st.objects → env.commitOutcome it.id = CommitRes.ignored

/-- Quiescent precondition: the unnamed list holds no item of the context. -/
def unnamedForeign (ctx : Nat) (st : St) : Prop :=
  ∀ it ∈ st.unnamed, it.ctx ≠ ctx

/-- Identification of frame items by id inside the registry state: the frame
candidates are registry items, and ids identify items uniquely. -/
def itemsIdOk (items : List (CItem × Bool)) (st : St) : Prop :=
  ∀ p ∈ items, ∀ x : CItem, (x ∈ st.named ∨ x ∈ st.unnamed) → x.id = p.1.id → x = p.1

theorem uncIgn_transport (env : Env) (ctx : Nat) (s s2 : St) (hc : sameCore s s2)
    (h : uncommittedIgnored env ctx s) : uncommittedIgnored env ctx s2 := by
  intro it hit hctx habs hobj
  rw [hc.1] at hit
  rw [hc.2.2.1] at hobj
  exact h it hit hctx habs hobj

theorem unFor_transport (ctx : Nat) (s s2 : St) (hc : sameCore s s2)
    (h : unnamedForeign ctx s) : unnamedForeign ctx s2 := by
  intro it hit
  rw [hc.2.1] at hit
  exact h it hit

theorem itemsIdOk_transport (items : List (CItem × Bool)) (s s2 : St)
    (hc : sameCore s s2) (h : itemsIdOk items s) : itemsIdOk items s2 := by
  intro p hp x hx hid
  rw [hc.1, hc.2.1] at hx
  exact h p hp x hx hid

theorem itemsIdOk_shrink (items : List (CItem × Bool)) (s s2 : St)
    (hn : ∀ x ∈ s2.named, x ∈ s.named) (hu : ∀ x ∈ s2.unnamed, x ∈ s.unnamed)
    (h : itemsIdOk items s) : itemsIdOk items s2 := by
  intro p hp x hx hid
  refine h p hp x ?_ hid
  rcases hx with hx | hx
  · exact Or.inl (hn x hx)
  · exact Or.inr (hu x hx)

theorem unFor_shrink (ctx : Nat) (s s2 : St)
    (hu : ∀ x ∈ s2.unnamed, x ∈ s.unnamed) (h : unnamedForeign ctx s) :
    unnamedForeign ctx s2 :=
  fun it hit => h it (hu it hit)

/-- Candidate collection at a quiescent state keeps the unnamed list. -/
theorem collect_snd_quiescent (ctx : Nat) (st : St) (hq2 : unnamedForeign ctx st) :
    (collectCandidates ctx st).2 = st := by
  unfold collectCandidates
  have hf : st.unnamed.filter (fun it => it.ctx != ctx) = st.unnamed :=
    List.filter_eq_self.mpr (fun it hit => by simpa [bne] using hq2 it hit)
  rw [hf]

/-- Candidate collection at a quiescent state draws only from the named
index. -/
theorem collect_fst_quiescent (ctx : Nat) (st : St) (hq2 : unnamedForeign ctx st) :
    (collectCandidates ctx st).1 =
      (st.named.filter (fun it =>
        !(it.abstract || st.objects.contains it.id) && it.ctx == ctx)).map
        (fun it => (it, false)) := by
  unfold collectCandidates
  have hf : st.unnamed.filter (fun it =>
      it.ctx == ctx && !(it.abstract || st.objects.contains it.id)) = [] := by
    rw [List.filter_eq_nil_iff]
    intro it hit
    have := hq2 it hit
    simp [this]
  rw [hf]
  simp

/-- Membership facts about candidates. -/
theorem collect_mem (ctx : Nat) (st : St) (p : CItem × Bool)
    (hp : p ∈ (collectCandidates ctx st).1) :
    (p.1 ∈ st.named ∨ p.1 ∈ st.unnamed) ∧ p.1.abstract = false ∧
      p.1.id ∉ st.objects ∧ p.1.ctx = ctx := by
  simp only [collectCandidates, List.mem_append, List.mem_map] at hp
  rcases hp with ⟨q, hq, hqe⟩ | ⟨q, hq, hqe⟩ <;> rw [List.mem_filter] at hq <;>
    cases hqe <;> rcases hq with ⟨hmem, hpred⟩
  · simp at hpred
    exact ⟨Or.inl hmem, hpred.1.1, hpred.1.2, hpred.2⟩
  · simp at hpred
    exact ⟨Or.inr hmem, hpred.2.1, hpred.2.2, hpred.1⟩

end CN

namespace CN

/-- Per-task effect of the commit barrier on everything except the ignored
list and exception flag. -/
theorem commitStep_named (env : Env) (s : St) (p : CItem × Bool) :
    (commitStep env s p).named = s.named := by
  unfold commitStep
  rcases env.commitOutcome p.1.id <;> rfl

theorem commitStep_unnamed (env : Env) (s : St) (p : CItem × Bool) :
    (commitStep env s p).unnamed = s.unnamed := by
  unfold commitStep
  rcases env.commitOutcome p.1.id <;> rfl

theorem commitStep_objects_sup (env : Env) (s : St) (p : CItem × Bool) :
    ∀ i ∈ s.objects, i ∈ (commitStep env s p).objects := by
  intro i hi
  unfold commitStep
  rcases env.commitOutcome p.1.id
  · exact List.mem_append_left _ hi
  · exact hi
  · exact hi

theorem commitStep_trace_shape (env : Env) (s : St) (p : CItem × Bool) :
    ∃ ext, (commitStep env s p).trace = s.trace ++ ext ∧
      ∀ e ∈ ext, ∃ x, e = Ev.commit x := by
  unfold commitStep
  rcases env.commitOutcome p.1.id
  · exact ⟨[Ev.commit p.1.id], rfl, by
      intro e he
      rcases List.mem_singleton.mp he with rfl
      exact ⟨p.1.id, rfl⟩⟩
  · exact ⟨[], by simp, by intro e he; cases he⟩
  · exact ⟨[], by simp, by intro e he; cases he⟩

theorem commitStep_success_mem (env : Env) (s : St) (p : CItem × Bool)
    (h : env.commitOutcome p.1.id = CommitRes.success) :
    p.1.id ∈ (commitStep env s p).objects := by
  unfold commitStep
  rw [h]
  exact List.mem_append_right _ (List.mem_singleton.mpr rfl)

theorem commitStep_exn_of (env : Env) (s : St) (p : CItem × Bool)
    (h : env.commitOutcome p.1.id = CommitRes.exn) :
    (commitStep env s p).hasExn = true := by
  unfold commitStep
  rw [h]

theorem runCommits_named (env : Env) (cs : List (CItem × Bool)) (s : St) :
    (runCommits env cs s).named = s.named := by
  induction cs generalizing s with
  | nil => rfl
  | cons p t ih =>
      show (runCommits env t (commitStep env s p)).named = s.named
      rw [ih (commitStep env s p), commitStep_named]

theorem runCommits_unnamed (env : Env) (cs : List (CItem × Bool)) (s : St) :
    (runCommits env cs s).unnamed = s.unnamed := by
  induction cs generalizing s with
  | nil => rfl
  | cons p t ih =>
      show (runCommits env t (commitStep env s p)).unnamed = s.unnamed
      rw [ih (commitStep env s p), commitStep_unnamed]

theorem runCommits_objects_sup (env : Env) (cs : List (CItem × Bool)) (s : St) :
    ∀ i ∈ s.objects, i ∈ (runCommits env cs s).objects := by
  induction cs generalizing s with
  | nil => exact fun i hi => hi
  | cons p t ih =>
      intro i hi
      exact ih (commitStep env s p) i (commitStep_objects_sup env s p i hi)

theorem runCommits_success_mem (env : Env) (cs : List (CItem × Bool)) (s : St) :
    ∀ p ∈ cs, env.commitOutcome p.1.id = CommitRes.success →
      p.1.id ∈ (runCommits env cs s).objects := by
  induction cs generalizing s with
  | nil => intro p hp; cases hp
  | cons q t ih =>
      intro p hp hs
      rcases List.mem_cons.mp hp with rfl | hm
      · exact runCommits_objects_sup env t (commitStep env s p) p.1.id
          (commitStep_success_mem env s p hs)
      · exact ih (commitStep env s q) p hm hs

theorem runCommits_exn_of_mem (env : Env) (cs : List (CItem × Bool)) (s : St) :
    ∀ p ∈ cs, env.commitOutcome p.1.id = CommitRes.exn →
      (runCommits env cs s).hasExn = true := by
  induction cs generalizing s with
  | nil => intro p hp; cases hp
  | cons q t ih =>
      intro p hp he
      rcases List.mem_cons.mp hp with rfl | hm
      · show (runCommits env t (commitStep env s p)).hasExn = true
        exact runCommits_exn_mono env t _ (commitStep_exn_of env s p he)
      · exact ih (commitStep env s q) p hm he

theorem runCommits_trace_shape (env : Env) (cs : List (CItem × Bool)) (s : St) :
    ∃ ext, (runCommits env cs s).trace = s.trace ++ ext ∧
      ∀ e ∈ ext, ∃ x, e = Ev.commit x := by
  induction cs generalizing s with
  | nil => exact ⟨[], by simp [runCommits], by intro e he; cases he⟩
  | cons p t ih =>
      rcases commitStep_trace_shape env s p with ⟨e1, he1, hc1⟩
      rcases ih (commitStep env s p) with ⟨e2, he2, hc2⟩
      refine ⟨e1 ++ e2, ?_, ?_⟩
      · show (runCommits env t (commitStep env s p)).trace = s.trace ++ (e1 ++ e2)
        rw [he2, he1, List.append_assoc]
      · intro e he
        rcases List.mem_append.mp he with h | h
        · exact hc1 e h
        · exact hc2 e h

theorem commitStep_ignored_same (env : Env) (s : St) (p : CItem × Bool)
    (h : env.commitOutcome p.1.id = CommitRes.ignored) :
    sameCore s (commitStep env s p) := by
  unfold commitStep
  rw [h]
  exact ⟨rfl, rfl, rfl, rfl, rfl⟩

theorem runCommits_all_ignored (env : Env) (cs : List (CItem × Bool)) (s : St)
    (h : ∀ p ∈ cs, env.commitOutcome p.1.id = CommitRes.ignored) :
    sameCore s (runCommits env cs s) := by
  induction cs generalizing s with
  | nil => exact sameCore_refl s
  | cons p t ih =>
      have h1 : sameCore s (commitStep env s p) :=
        commitStep_ignored_same env s p (h p (List.mem_cons_self p t))
      have h2 := ih (commitStep env s p)
        (fun q hq => h q (List.mem_cons_of_mem p hq))
      exact sameCore_trans h1 h2

/-- Component effects of `unregisterCN`. -/
theorem unregisterCN_trace (s : St) (it : CItem) :
    (unregisterCN s it).trace = s.trace := rfl

theorem unregisterCN_named_sub (s : St) (it : CItem) :
    ∀ x ∈ (unregisterCN s it).named, x ∈ s.named := by
  intro x hx
  exact (List.mem_filter.mp hx).1

theorem unregisterCN_unnamed_sub (s : St) (it : CItem) :
    ∀ x ∈ (unregisterCN s it).unnamed, x ∈ s.unnamed := by
  intro x hx
  exact (List.mem_filter.mp hx).1

theorem unregisterCN_objects_sub (s : St) (it : CItem) :
    ∀ i ∈ (unregisterCN s it).objects, i ∈ s.objects := by
  intro i hi
  exact (List.mem_filter.mp hi).1

end CN

namespace CN

theorem oaclStep_eq_ok (env : Env) (t : TyDesc) (s0 : St) (p : CItem × Bool)
    (h : env.oaclThrows p.1.id = false) :
    oaclStep env t s0 p =
      { s0 with trace := s0.trace ++ [Ev.oacl p.1.id t.name] } := by
  simp [oaclStep, h]

theorem oaclStep_eq_exn (env : Env) (t : TyDesc) (s0 : St) (p : CItem × Bool)
    (h1 : env.oaclThrows p.1.id = true) (h2 : p.1.ignoreOnError = false) :
    oaclStep env t s0 p =
      { s0 with trace := s0.trace ++ [Ev.oacl p.1.id t.name], hasExn := true } := by
  simp [oaclStep, h1, h2]

theorem oaclStep_eq_ign (env : Env) (t : TyDesc) (s0 : St) (p : CItem × Bool)
    (h1 : env.oaclThrows p.1.id = true) (h2 : p.1.ignoreOnError = true) :
    oaclStep env t s0 p =
      ⟨s0.named.filter (fun x => !(x.typeName == p.1.typeName && x.name == p.1.name)),
        s0.unnamed.filter (fun x => x.id != p.1.id),
        s0.objects.filter (fun o => o != p.1.id),
        s0.ignored ++ [p.1.path], s0.hasExn,
        s0.trace ++ [Ev.oacl p.1.id t.name]⟩ := by
  simp [oaclStep, unregisterCN, h1, h2]

/-- Combined component specification of one `OnAllConfigLoaded` task: the
registry components only shrink, the quiescent precondition is preserved, and
exactly one `oacl` event tagged with the processed type is appended. -/
theorem oaclStep_spec (env : Env) (ctx : Nat) (items : List (CItem × Bool))
    (t : TyDesc) (s : St) (p : CItem × Bool) (hp : p ∈ items) :
    (∀ x ∈ (oaclStep env t s p).named, x ∈ s.named) ∧
    (∀ x ∈ (oaclStep env t s p).unnamed, x ∈ s.unnamed) ∧
    (∀ i ∈ (oaclStep env t s p).objects, i ∈ s.objects) ∧
    (itemsIdOk items s → uncommittedIgnored env ctx s →
      uncommittedIgnored env ctx (oaclStep env t s p)) ∧
    (oaclStep env t s p).trace = s.trace ++ [Ev.oacl p.1.id t.name] := by
  by_cases h1 : env.oaclThrows p.1.id = true
  · by_cases h2 : p.1.ignoreOnError = true
    · rw [oaclStep_eq_ign env t s p h1 h2]
      refine ⟨?_, ?_, ?_, ?_, rfl⟩
      · intro x hx
        exact (List.mem_filter.mp hx).1
      · intro x hx
        exact (List.mem_filter.mp hx).1
      · intro i hi
        exact (List.mem_filter.mp hi).1
      · intro hIdOk hq1 X hX hctx habs hobj
        have hXn : X ∈ s.named := (List.mem_filter.mp hX).1
        have hXkey := (List.mem_filter.mp hX).2
        by_cases hXo : X.id ∈ s.objects
        · exfalso
          have hXid : X.id = p.1.id := by
            by_contra hne
            apply hobj
            apply List.mem_filter.mpr
            exact ⟨hXo, by simpa using hne⟩
          have hXp : X = p.1 := hIdOk p hp X (Or.inl hXn) hXid
          rw [hXp] at hXkey
          simp at hXkey
        · apply hq1 X hXn hctx habs hXo
    · have h2f : p.1.ignoreOnError = false := eq_false_of_ne_true h2
      rw [oaclStep_eq_exn env t s p h1 h2f]
      refine ⟨fun x hx => hx, fun x hx => hx, fun i hi => hi, ?_, rfl⟩
      intro _ hq1 X hX hctx habs hobj
      exact hq1 X hX hctx habs hobj
  · have h1f : env.oaclThrows p.1.id = false := eq_false_of_ne_true h1
    rw [oaclStep_eq_ok env t s p h1f]
    refine ⟨fun x hx => hx, fun x hx => hx, fun i hi => hi, ?_, rfl⟩
    intro _ hq1 X hX hctx habs hobj
    exact hq1 X hX hctx habs hobj

/-- Folded version of `oaclStep_spec` over the barrier's task list. -/
theorem oaclFold_spec (env : Env) (ctx : Nat) (items : List (CItem × Bool))
    (t : TyDesc) :
    ∀ (sel : List (CItem × Bool)) (s : St), (∀ p ∈ sel, p ∈ items) →
      (∀ x ∈ (sel.foldl (oaclStep env t) s).named, x ∈ s.named) ∧
      (∀ x ∈ (sel.foldl (oaclStep env t) s).unnamed, x ∈ s.unnamed) ∧
      (∀ i ∈ (sel.foldl (oaclStep env t) s).objects, i ∈ s.objects) ∧
      (itemsIdOk items s → uncommittedIgnored env ctx s →
        uncommittedIgnored env ctx (sel.foldl (oaclStep env t) s)) ∧
      (∃ ext, (sel.foldl (oaclStep env t) s).trace = s.trace ++ ext ∧
        ∀ e ∈ ext, ∃ x, e = Ev.oacl x t.name) := by
  intro sel
  induction sel with
  | nil =>
      intro s _
      exact ⟨fun x hx => hx, fun x hx => hx, fun i hi => hi,
        fun _ h => h, ⟨[], by simp, by intro e he; cases he⟩⟩
  | cons p rest ih =>
      intro s hsel
      have hstep := oaclStep_spec env ctx items t s p (hsel p (List.mem_cons_self p rest))
      have hrest := ih (oaclStep env t s p)
        (fun q hq => hsel q (List.mem_cons_of_mem p hq))
      refine ⟨?_, ?_, ?_, ?_, ?_⟩
      · intro x hx
        exact hstep.1 x (hrest.1 x hx)
      · intro x hx
        exact hstep.2.1 x (hrest.2.1 x hx)
      · intro i hi
        exact hstep.2.2.1 i (hrest.2.2.1 i hi)
      · intro hIdOk hq1
        apply hrest.2.2.2.1
        · exact itemsIdOk_shrink items s _ hstep.1 hstep.2.1 hIdOk
        · exact hstep.2.2.2.1 hIdOk hq1
      · rcases hrest.2.2.2.2 with ⟨ext, hext, hc⟩
        refine ⟨[Ev.oacl p.1.id t.name] ++ ext, ?_, ?_⟩
        · show (rest.foldl (oaclStep env t) (oaclStep env t s p)).trace =
            s.trace ++ ([Ev.oacl p.1.id t.name] ++ ext)
          rw [hext, hstep.2.2.2.2, List.append_assoc]
        · intro e he
          rcases List.mem_append.mp he with h | h
          · rcases List.mem_singleton.mp h with rfl
            exact ⟨p.1.id, rfl⟩
          · exact hc e h

theorem registerChildren_nil (s : St) (ctx2 : Nat) :
    registerChildren s [] ctx2 = s := rfl

theorem childStep_core (env : Env) (t : TyDesc) (s : St) (p : CItem × Bool)
    (hnc : ∀ i ty, env.childItems i ty = []) :
    (childStep env t s p).named = s.named ∧
    (childStep env t s p).unnamed = s.unnamed ∧
    (childStep env t s p).objects = s.objects ∧
    (childStep env t s p).trace = s.trace ++ [Ev.createChild p.1.id t.name] := by
  unfold childStep
  by_cases h : env.childThrows p.1.id t.name = true
  · simp [h]
  · simp [h, hnc p.1.id t.name, registerChildren_nil]

theorem childFold_core (env : Env) (t : TyDesc)
    (hnc : ∀ i ty, env.childItems i ty = []) :
    ∀ (sel : List (CItem × Bool)) (s : St),
      (sel.foldl (childStep env t) s).named = s.named ∧
      (sel.foldl (childStep env t) s).unnamed = s.unnamed ∧
      (sel.foldl (childStep env t) s).objects = s.objects ∧
      (∃ ext, (sel.foldl (childStep env t) s).trace = s.trace ++ ext ∧
        ∀ e ∈ ext, ∀ x ty2, e ≠ Ev.oacl x ty2) := by
  intro sel
  induction sel with
  | nil =>
      intro s
      exact ⟨rfl, rfl, rfl, ⟨[], by simp, by intro e he; cases he⟩⟩
  | cons p rest ih =>
      intro s
      have hstep := childStep_core env t s p hnc
      have hrest := ih (childStep env t s p)
      refine ⟨hrest.1.trans hstep.1, hrest.2.1.trans hstep.2.1,
        hrest.2.2.1.trans hstep.2.2.1, ?_⟩
      rcases hrest.2.2.2 with ⟨ext, hext, hc⟩
      refine ⟨[Ev.createChild p.1.id t.name] ++ ext, ?_, ?_⟩
      · show (rest.foldl (childStep env t) (childStep env t s p)).trace =
          s.trace ++ ([Ev.createChild p.1.id t.name] ++ ext)
        rw [hext, hstep.2.2.2, List.append_assoc]
      · intro e he
        rcases List.mem_append.mp he with h | h
        · rcases List.mem_singleton.mp h with rfl
          intro x ty2
          exact fun hcon => Ev.noConfusion hcon
        · exact hc e h

theorem childDepsFold_core (env : Env) (t : TyDesc) (items : List (CItem × Bool))
    (hnc : ∀ i ty, env.childItems i ty = []) :
    ∀ (deps : List String) (s : St),
      (deps.foldl (fun s2 dep =>
        (items.filter (fun p =>
          s2.objects.contains p.1.id && p.1.typeName == dep)).foldl
          (childStep env t) s2) s).named = s.named ∧
      (deps.foldl (fun s2 dep =>
        (items.filter (fun p =>
          s2.objects.contains p.1.id && p.1.typeName == dep)).foldl
          (childStep env t) s2) s).unnamed = s.unnamed ∧
      (deps.foldl (fun s2 dep =>
        (items.filter (fun p =>
          s2.objects.contains p.1.id && p.1.typeName == dep)).foldl
          (childStep env t) s2) s).objects = s.objects ∧
      (∃ ext, (deps.foldl (fun s2 dep =>
        (items.filter (fun p =>
          s2.objects.contains p.1.id && p.1.typeName == dep)).foldl
          (childStep env t) s2) s).trace = s.trace ++ ext ∧
        ∀ e ∈ ext, ∀ x ty2, e ≠ Ev.oacl x ty2) := by
  intro deps
  induction deps with
  | nil =>
      intro s
      exact ⟨rfl, rfl, rfl, ⟨[], by simp, by intro e he; cases he⟩⟩
  | cons dep rest ih =>
      intro s
      have hinner := childFold_core env t hnc
        (items.filter (fun p => s.objects.contains p.1.id && p.1.typeName == dep)) s
      have hrest := ih ((items.filter (fun p =>
        s.objects.contains p.1.id && p.1.typeName == dep)).foldl (childStep env t) s)
      rw [List.foldl_cons]
      refine ⟨hrest.1.trans hinner.1, hrest.2.1.trans hinner.2.1,
        hrest.2.2.1.trans hinner.2.2.1, ?_⟩
      rcases hinner.2.2.2 with ⟨e1, he1, hc1⟩
      rcases hrest.2.2.2 with ⟨e2, he2, hc2⟩
      refine ⟨e1 ++ e2, ?_, ?_⟩
      · rw [he2, he1, List.append_assoc]
      · intro e he
        rcases List.mem_append.mp he with h | h
        · exact hc1 e h
        · exact hc2 e h

theorem childPhase_core (env : Env) (t : TyDesc) (items : List (CItem × Bool))
    (hnc : ∀ i ty, env.childItems i ty = []) (s : St) :
    (childPhase env t items s).named = s.named ∧
    (childPhase env t items s).unnamed = s.unnamed ∧
    (childPhase env t items s).objects = s.objects ∧
    (∃ ext, (childPhase env t items s).trace = s.trace ++ ext ∧
      ∀ e ∈ ext, ∀ x ty2, e ≠ Ev.oacl x ty2) :=
  childDepsFold_core env t items hnc t.loadDependencies s

end CN

namespace CN

theorem oaclPhase_no_objects (env : Env) (t : TyDesc)
    (items : List (CItem × Bool)) (s : St)
    (hno : ∀ p ∈ items, p.1.id ∉ s.objects) :
    oaclPhase env t items s = s := by
  unfold oaclPhase
  have hf : items.filter
      (fun p => s.objects.contains p.1.id && p.1.typeName == t.name) = [] := by
    rw [List.filter_eq_nil_iff]
    intro p hp
    cases hA : s.objects.contains p.1.id
    · simp [hA]
    · exact absurd (List.elem_iff.mp hA) (hno p hp)
  rw [hf]
  rfl

theorem childDepsFold_no_objects (env : Env) (t : TyDesc)
    (items : List (CItem × Bool)) :
    ∀ (deps : List String) (s : St), (∀ p ∈ items, p.1.id ∉ s.objects) →
      (deps.foldl (fun s2 dep =>
        (items.filter (fun p =>
          s2.objects.contains p.1.id && p.1.typeName == dep)).foldl
          (childStep env t) s2) s) = s := by
  intro deps
  induction deps with
  | nil => intro s _; rfl
  | cons dep rest ih =>
      intro s hno
      rw [List.foldl_cons]
      have hf : items.filter
          (fun p => s.objects.contains p.1.id && p.1.typeName == dep) = [] := by
        rw [List.filter_eq_nil_iff]
        intro p hp
        cases hA : s.objects.contains p.1.id
        · simp [hA]
        · exact absurd (List.elem_iff.mp hA) (hno p hp)
      rw [hf]
      exact ih s hno

theorem childPhase_no_objects (env : Env) (t : TyDesc)
    (items : List (CItem × Bool)) (s : St)
    (hno : ∀ p ∈ items, p.1.id ∉ s.objects) :
    childPhase env t items s = s :=
  childDepsFold_no_objects env t items t.loadDependencies s hno

/-- At a quiescent state (no frame item has an object; all uncommitted items
of the context are ignored-outcome; no unnamed item of the context) one
processed type changes nothing but possibly the ignored list. -/
theorem processType_quiescent (env : Env) (ctx : Nat)
    (f : Nat) (t : TyDesc) (items : List (CItem × Bool)) (completed : List String)
    (s : St)
    (hno : ∀ p ∈ items, p.1.id ∉ s.objects)
    (hq1 : uncommittedIgnored env ctx s) (hq2 : unnamedForeign ctx s)
    (hL : ∀ st r s2, uncommittedIgnored env ctx st → unnamedForeign ctx st →
      commitNewItems env ctx f st = (r, s2) → sameCore st s2) :
    (∀ r s2, processType (fun s3 => commitNewItems env ctx f s3) env t items
        completed s = PassRes.abort r s2 → sameCore s s2) ∧
    (∀ c s2, processType (fun s3 => commitNewItems env ctx f s3) env t items
        completed s = PassRes.done c s2 → sameCore s s2) := by
  unfold processType
  rw [oaclPhase_no_objects env t items s hno]
  by_cases hx : s.hasExn = true
  · rw [if_pos hx]
    constructor
    · intro r s2 h
      cases h
      exact sameCore_refl s
    · intro c s2 h
      cases h
  · rw [if_neg hx]
    rw [childPhase_no_objects env t items s hno]
    rw [if_neg hx]
    have hbeta : (fun s3 => commitNewItems env ctx f s3) s
        = commitNewItems env ctx f s := rfl
    rw [hbeta]
    rcases hr : commitNewItems env ctx f s with ⟨r3, s3⟩
    have hsc : sameCore s s3 := hL s r3 s3 hq1 hq2 hr
    rcases r3 with _ | b
    · constructor
      · intro r s2 h
        cases h
        exact hsc
      · intro c s2 h
        cases h
    · cases b
      · constructor
        · intro r s2 h
          cases h
          exact hsc
        · intro c s2 h
          cases h
      · constructor
        · intro r s2 h
          cases h
        · intro c s2 h
          cases h
          exact hsc

theorem typePass_quiescent (env : Env) (ctx : Nat) (f : Nat)
    (types : List TyDesc) (items : List (CItem × Bool))
    (hL : ∀ st r s2, uncommittedIgnored env ctx st → unnamedForeign ctx st →
      commitNewItems env ctx f st = (r, s2) → sameCore st s2) :
    ∀ (pending : List TyDesc) (completed : List String) (s : St),
      (∀ p ∈ items, p.1.id ∉ s.objects) →
      uncommittedIgnored env ctx s → unnamedForeign ctx s →
      (∀ r s2, typePass (fun s3 => commitNewItems env ctx f s3) env types pending
          completed items s = PassRes.abort r s2 → sameCore s s2) ∧
      (∀ c s2, typePass (fun s3 => commitNewItems env ctx f s3) env types pending
          completed items s = PassRes.done c s2 → sameCore s s2) := by
  intro pending
  induction pending with
  | nil =>
      intro completed s _ _ _
      constructor
      · intro r s2 h
        cases h
      · intro c s2 h
        cases h
        exact sameCore_refl s
  | cons t rest ih =>
      intro completed s hno hq1 hq2
      unfold typePass
      by_cases hc : completed.contains t.name = true
      · rw [if_pos hc]
        exact ih completed s hno hq1 hq2
      · rw [if_neg hc]
        by_cases hu : unresolvedDep env types completed t = true
        · rw [if_pos hu]
          exact ih completed s hno hq1 hq2
        · rw [if_neg hu]
          have hpt := processType_quiescent env ctx f t items completed s hno hq1 hq2 hL
          rcases hres : processType (fun s3 => commitNewItems env ctx f s3) env t
              items completed s with ⟨r1, s1⟩ | ⟨c1, s1⟩
          · have hsc := hpt.1 r1 s1 hres
            constructor
            · intro r s2 h
              cases h
              exact hsc
            · intro c s2 h
              cases h
          · have hsc := hpt.2 c1 s1 hres
            have hno1 : ∀ p ∈ items, p.1.id ∉ s1.objects := by
              intro p hp
              rw [hsc.2.2.1]
              exact hno p hp
            have hrest := ih c1 s1 hno1 (uncIgn_transport env ctx s s1 hsc hq1)
              (unFor_transport ctx s s1 hsc hq2)
            constructor
            · intro r s2 h
              exact sameCore_trans hsc (hrest.1 r s2 h)
            · intro c s2 h
              exact sameCore_trans hsc (hrest.2 c s2 h)

theorem whileLoop_quiescent (env : Env) (ctx : Nat) (f : Nat)
    (types : List TyDesc) (items : List (CItem × Bool))
    (hL : ∀ st r s2, uncommittedIgnored env ctx st → unnamedForeign ctx st →
      commitNewItems env ctx f st = (r, s2) → sameCore st s2) :
    ∀ (wf : Nat) (completed : List String) (s : St),
      (∀ p ∈ items, p.1.id ∉ s.objects) →
      uncommittedIgnored env ctx s → unnamedForeign ctx s →
      ∀ r s2, whileLoop (fun s3 => commitNewItems env ctx f s3) env types items wf
        completed s = (r, s2) → sameCore s s2 := by
  intro wf
  induction wf with
  | zero =>
      intro completed s _ _ _ r s2 h
      unfold whileLoop at h
      cases h
      exact sameCore_refl s
  | succ wf ih =>
      intro completed s hno hq1 hq2 r s2 h
      unfold whileLoop at h
      by_cases hlen : (types.length == completed.length) = true
      · rw [if_pos hlen] at h
        cases h
        exact sameCore_refl s
      · rw [if_neg hlen] at h
        have htp := typePass_quiescent env ctx f types items hL types completed s
          hno hq1 hq2
        rcases hres : typePass (fun s3 => commitNewItems env ctx f s3) env types
            types completed items s with ⟨r1, s1⟩ | ⟨c1, s1⟩
        · rw [hres] at h
          cases h
          exact htp.1 _ _ hres
        · rw [hres] at h
          have hsc := htp.2 c1 s1 hres
          have hno1 : ∀ p ∈ items, p.1.id ∉ s1.objects := by
            intro p hp
            rw [hsc.2.2.1]
            exact hno p hp
          exact sameCore_trans hsc (ih c1 s1 hno1
            (uncIgn_transport env ctx s s1 hsc hq1)
            (unFor_transport ctx s s1 hsc hq2) r s2 h)

/-- The no-progress lemma: with no child creation, a `CommitNewItems` call on
a quiescent state changes nothing but the ignored list (recursive re-entries
keep re-committing the same ignored items and otherwise do nothing). -/
theorem quiescent_run (env : Env) (ctx : Nat)
    (hnc : ∀ i ty, env.childItems i ty = []) :
    ∀ (f : Nat) (st : St), uncommittedIgnored env ctx st → unnamedForeign ctx st →
      ∀ r s2, commitNewItems env ctx f st = (r, s2) → sameCore st s2 := by
  intro f
  induction f with
  | zero =>
      intro st _ _ r s2 h
      unfold commitNewItems at h
      cases h
      exact sameCore_refl st
  | succ f ih =>
      intro st hq1 hq2 r s2 h
      simp only [commitNewItems] at h
      rw [collect_snd_quiescent ctx st hq2] at h
      by_cases hemp : (collectCandidates ctx st).1.isEmpty = true
      · rw [if_pos hemp] at h
        cases h
        exact sameCore_refl st
      · rw [if_neg hemp] at h
        have hall : ∀ p ∈ (collectCandidates ctx st).1,
            env.commitOutcome p.1.id = CommitRes.ignored := by
          intro p hp
          have hm := collect_mem ctx st p hp
          rcases hm.1 with hmem | hmem
          · exact hq1 p.1 hmem hm.2.2.2 hm.2.1 hm.2.2.1
          · exact absurd hm.2.2.2 (hq2 p.1 hmem)
        have hrc : sameCore st (runCommits env (collectCandidates ctx st).1 st) :=
          runCommits_all_ignored env (collectCandidates ctx st).1 st hall
        by_cases hx : (runCommits env (collectCandidates ctx st).1 st).hasExn = true
        · rw [if_pos hx] at h
          cases h
          exact hrc
        · rw [if_neg hx] at h
          have hno : ∀ p ∈ (collectCandidates ctx st).1,
              p.1.id ∉ (runCommits env (collectCandidates ctx st).1 st).objects := by
            intro p hp
            rw [hrc.2.2.1]
            exact (collect_mem ctx st p hp).2.2.1
          have hwl := whileLoop_quiescent env ctx f (typesOf env)
            (collectCandidates ctx st).1
            (fun st2 r2 s3 hq1b hq2b hb => ih st2 hq1b hq2b r2 s3 hb) (f + 1) []
            (runCommits env (collectCandidates ctx st).1 st) hno
            (uncIgn_transport env ctx st _ hrc hq1)
            (unFor_transport ctx st _ hrc hq2) r s2 h
          exact sameCore_trans hrc hwl

end CN

namespace CN

theorem scontains_false_not_mem (x : String) (l : List String)
    (h : l.contains x = false) : x ∉ l := by
  intro hm
  have h2 : l.contains x = true := List.elem_eq_true_of_mem hm
  rw [h2] at h
  cases h

theorem smem_of_contains (x : String) (l : List String)
    (h : l.contains x = true) : x ∈ l := by
  have h2 : List.elem x l = true := h
  exact List.elem_iff.mp h2

/-- With name-unique type registries, looking a type's own name up returns the
type itself. -/
theorem find_by_name_self (l : List TyDesc)
    (hund : (l.map (fun u => u.name)).Nodup) (t : TyDesc) (ht : t ∈ l) :
    l.find? (fun u => u.name == t.name) = some t := by
  induction l with
  | nil => cases ht
  | cons a rest ih =>
      rw [List.map_cons, List.nodup_cons] at hund
      rcases List.mem_cons.mp ht with rfl | hm
      · rw [List.find?_cons_of_pos]
        simp
      · by_cases ha : (a.name == t.name) = true
        · exfalso
          have hmm : t.name ∈ rest.map (fun u => u.name) :=
            List.mem_map.mpr ⟨t, hm, rfl⟩
          have heq : a.name = t.name := by simpa using ha
          rw [← heq] at hmm
          exact hund.1 hmm
        · have hstep : List.find? (fun u => u.name == t.name) (a :: rest) =
              List.find? (fun u => u.name == t.name) rest :=
            List.find?_cons_of_neg rest ha
          rw [hstep]
          exact ih hund.2 hm

/-- What the source's unresolved-dependency test enforces when it passes: all
restricted load dependencies are completed. -/
theorem unresolvedDep_false_deps (env : Env)
    (hund : (env.allTypes.map (fun u => u.name)).Nodup)
    (t : TyDesc) (ht : t ∈ typesOf env) (completed : List String)
    (h : unresolvedDep env (typesOf env) completed t = false) :
    ∀ d ∈ restrictedDeps env t.name, d ∈ completed := by
  intro d hd
  have ht2 : t ∈ env.allTypes := (List.mem_filter.mp ht).1
  have hfind : env.allTypes.find? (fun u => u.name == t.name) = some t :=
    find_by_name_self env.allTypes hund t ht2
  unfold restrictedDeps at hd
  rw [hfind] at hd
  rw [List.mem_filter] at hd
  rcases hd with ⟨hdl, hdp⟩
  rcases hpd : env.allTypes.find? (fun u => u.name == d) with _ | pd
  · rw [hpd] at hdp
    cases hdp
  · rw [hpd] at hdp
    have hdp2 : ((typesOf env).any (fun u => u.name == pd.name)) = true := hdp
    have hpdname : pd.name = d := by
      have := List.find?_some hpd
      simpa using this
    unfold unresolvedDep at h
    have h2 := (List.any_eq_false.mp h) d hdl
    cases hcc : completed.contains pd.name
    · exfalso
      apply h2
      rw [hpd]
      show ((typesOf env).any (fun u => u.name == pd.name) &&
        !completed.contains pd.name) = true
      rw [hdp2, hcc]
      rfl
    · rw [← hpdname]
      exact smem_of_contains pd.name completed hcc

theorem uncIgn_eq_transport (env : Env) (ctx : Nat) (s s2 : St)
    (hn : s2.named = s.named) (ho : s2.objects = s.objects)
    (h : uncommittedIgnored env ctx s) : uncommittedIgnored env ctx s2 := by
  intro it hit hctx habs hobj
  rw [hn] at hit
  rw [ho] at hobj
  exact h it hit hctx habs hobj

theorem unFor_eq_transport (ctx : Nat) (s s2 : St)
    (hu : s2.unnamed = s.unnamed) (h : unnamedForeign ctx s) :
    unnamedForeign ctx s2 := by
  intro it hit
  rw [hu] at hit
  exact h it hit

theorem itemsIdOk_eq_transport (items : List (CItem × Bool)) (s s2 : St)
    (hn : s2.named = s.named) (hu : s2.unnamed = s.unnamed)
    (h : itemsIdOk items s) : itemsIdOk items s2 := by
  intro p hp x hx hid
  rw [hn, hu] at hx
  exact h p hp x hx hid

/-- The invariant carried through the per-frame finalization loop: trace
events are tagged with completed types; the quiescence preconditions for
recursive re-entries; frame-item identification; every completed type's
restricted dependencies were completed before it; and the trace is ordered
according to the completion order. -/
def InvI (env : Env) (ctx : Nat) (items : List (CItem × Bool))
    (completed : List String) (st : St) : Prop :=
  (∀ x tn, Ev.oacl x tn ∈ st.trace → tn ∈ completed) ∧
  uncommittedIgnored env ctx st ∧
  unnamedForeign ctx st ∧
  itemsIdOk items st ∧
  (∀ tn ∈ completed, ∀ d ∈ restrictedDeps env tn, completedBefore completed d tn) ∧
  (∀ b a, completedBefore completed b a → orderedEvents b a st.trace)

theorem InvI_transport (env : Env) (ctx : Nat) (items : List (CItem × Bool))
    (completed : List String) (s s2 : St) (hc : sameCore s s2)
    (h : InvI env ctx items completed s) : InvI env ctx items completed s2 := by
  refine ⟨?_, uncIgn_transport env ctx s s2 hc h.2.1,
    unFor_transport ctx s s2 hc h.2.2.1,
    itemsIdOk_transport items s s2 hc h.2.2.2.1, h.2.2.2.2.1, ?_⟩
  · intro x tn hmem
    rw [hc.2.2.2.1] at hmem
    exact h.1 x tn hmem
  · intro b a hba
    rw [hc.2.2.2.1]
    exact h.2.2.2.2.2 b a hba

end CN

namespace CN

/-- Processing one ready type preserves the invariant, extending the
completion order by the type's name. -/
theorem processType_inv (env : Env) (ctx : Nat) (f : Nat)
    (items : List (CItem × Bool)) (t : TyDesc) (completed : List String) (st : St)
    (hnc : ∀ i ty, env.childItems i ty = [])
    (hund : (env.allTypes.map (fun u => u.name)).Nodup)
    (ht : t ∈ typesOf env)
    (hfresh : completed.contains t.name = false)
    (hu : unresolvedDep env (typesOf env) completed t = false)
    (hinv : InvI env ctx items completed st) :
    ∀ c s2, processType (fun s3 => commitNewItems env ctx f s3) env t items
      completed st = PassRes.done c s2 →
      c = completed ++ [t.name] ∧ InvI env ctx items (completed ++ [t.name]) s2 := by
  intro c s2 h
  have hfreshm : t.name ∉ completed := scontains_false_not_mem t.name completed hfresh
  have hof := oaclFold_spec env ctx items t
    (items.filter (fun p => st.objects.contains p.1.id && p.1.typeName == t.name)) st
    (fun p hp => (List.mem_filter.mp hp).1)
  rcases hof.2.2.2.2 with ⟨ext, hext, hctag⟩
  have hextO : (oaclPhase env t items st).trace = st.trace ++ ext := hext
  have hinv1 : InvI env ctx items (completed ++ [t.name]) (oaclPhase env t items st) := by
    refine ⟨?_, hof.2.2.2.1 hinv.2.2.2.1 hinv.2.1,
      unFor_shrink ctx st _ hof.2.1 hinv.2.2.1,
      itemsIdOk_shrink items st _ hof.1 hof.2.1 hinv.2.2.2.1, ?_, ?_⟩
    · intro x tn hmem
      show tn ∈ completed ++ [t.name]
      have hmem2 : Ev.oacl x tn ∈ st.trace ++ ext := by
        rw [← hextO]
        exact hmem
      rcases List.mem_append.mp hmem2 with hold | hnew
      · exact List.mem_append_left _ (hinv.1 x tn hold)
      · rcases hctag _ hnew with ⟨x2, he⟩
        injection he with h1 h2
        rw [h2]
        exact List.mem_append_right _ (List.mem_singleton.mpr rfl)
    · intro tn htn d hd
      rcases List.mem_append.mp htn with holdc | hnewc
      · exact completedBefore_append completed [t.name] d tn
          (hinv.2.2.2.2.1 tn holdc d hd)
      · have htn2 : tn = t.name := List.mem_singleton.mp hnewc
        subst htn2
        have hdc : d ∈ completed :=
          unresolvedDep_false_deps env hund t ht completed hu d hd
        exact completedBefore_new completed d t.name hdc hfreshm
    · show ∀ b a, completedBefore (completed ++ [t.name]) b a →
        orderedEvents b a (oaclPhase env t items st).trace
      rw [hextO]
      exact ordering_extend completed t.name st.trace ext hfreshm
        hinv.1 hctag hinv.2.2.2.2.2
  unfold processType at h
  by_cases hx1 : (oaclPhase env t items st).hasExn = true
  · rw [if_pos hx1] at h
    cases h
  · rw [if_neg hx1] at h
    have hcp := childPhase_core env t items hnc (oaclPhase env t items st)
    rcases hcp.2.2.2 with ⟨ext2, hext2, hctag2⟩
    have hinv2 : InvI env ctx items (completed ++ [t.name])
        (childPhase env t items (oaclPhase env t items st)) := by
      refine ⟨?_, uncIgn_eq_transport env ctx _ _ hcp.1 hcp.2.2.1 hinv1.2.1,
        unFor_eq_transport ctx _ _ hcp.2.1 hinv1.2.2.1,
        itemsIdOk_eq_transport items _ _ hcp.1 hcp.2.1 hinv1.2.2.2.1,
        hinv1.2.2.2.2.1, ?_⟩
      · intro x tn hmem
        rw [hext2] at hmem
        rcases List.mem_append.mp hmem with hold | hnew
        · exact hinv1.1 x tn hold
        · exact absurd rfl (hctag2 _ hnew x tn)
      · intro b a hba
        rw [hext2]
        apply orderedEvents_append b a _ ext2 (hinv1.2.2.2.2.2 b a hba)
        intro e he x
        exact hctag2 e he x b
    by_cases hx2 : (childPhase env t items (oaclPhase env t items st)).hasExn = true
    · rw [if_pos hx2] at h
      cases h
    · rw [if_neg hx2] at h
      have hbeta : (fun s3 => commitNewItems env ctx f s3)
          (childPhase env t items (oaclPhase env t items st))
          = commitNewItems env ctx f
            (childPhase env t items (oaclPhase env t items st)) := rfl
      rw [hbeta] at h
      rcases hr : commitNewItems env ctx f
          (childPhase env t items (oaclPhase env t items st)) with ⟨r3, s3⟩
      have hsc : sameCore (childPhase env t items (oaclPhase env t items st)) s3 :=
        quiescent_run env ctx hnc f _ hinv2.2.1 hinv2.2.2.1 r3 s3 hr
      rw [hr] at h
      rcases r3 with _ | b
      · cases h
      · cases b
        · cases h
        · cases h
          exact ⟨rfl, InvI_transport env ctx items (completed ++ [t.name]) _ _ hsc hinv2⟩

theorem processType_no_true_abort (rec : St → Option Bool × St) (env : Env)
    (t : TyDesc) (items : List (CItem × Bool)) (completed : List String) (st : St) :
    ∀ s2, processType rec env t items completed st = PassRes.abort (some true) s2 →
      False := by
  intro s2 h
  unfold processType at h
  by_cases hx1 : (oaclPhase env t items st).hasExn = true
  · rw [if_pos hx1] at h
    cases h
  · rw [if_neg hx1] at h
    by_cases hx2 : (childPhase env t items (oaclPhase env t items st)).hasExn = true
    · rw [if_pos hx2] at h
      cases h
    · rw [if_neg hx2] at h
      rcases hr : rec (childPhase env t items (oaclPhase env t items st)) with ⟨r3, s3⟩
      rw [hr] at h
      rcases r3 with _ | b
      · cases h
      · cases b
        · cases h
        · cases h

theorem typePass_no_true_abort (rec : St → Option Bool × St) (env : Env)
    (types : List TyDesc) (items : List (CItem × Bool)) :
    ∀ (pending : List TyDesc) (completed : List String) (st : St) (s2 : St),
      typePass rec env types pending completed items st =
        PassRes.abort (some true) s2 → False := by
  intro pending
  induction pending with
  | nil =>
      intro completed st s2 h
      cases h
  | cons t rest ih =>
      intro completed st s2 h
      unfold typePass at h
      by_cases hc : completed.contains t.name = true
      · rw [if_pos hc] at h
        exact ih completed st s2 h
      · rw [if_neg hc] at h
        by_cases hu : unresolvedDep env types completed t = true
        · rw [if_pos hu] at h
          exact ih completed st s2 h
        · rw [if_neg hu] at h
          rcases hres : processType rec env t items completed st
              with ⟨r1, s1⟩ | ⟨c1, s1⟩
          · rw [hres] at h
            cases h
            exact processType_no_true_abort rec env t items completed st _ hres
          · rw [hres] at h
            exact ih c1 s1 s2 h

/-- One pass over the type set preserves the invariant on its `done` result. -/
theorem typePass_inv (env : Env) (ctx : Nat) (f : Nat)
    (items : List (CItem × Bool))
    (hnc : ∀ i ty, env.childItems i ty = [])
    (hund : (env.allTypes.map (fun u => u.name)).Nodup) :
    ∀ (pending : List TyDesc), (∀ t ∈ pending, t ∈ typesOf env) →
      ∀ (completed : List String) (st : St), InvI env ctx items completed st →
      ∀ c s2, typePass (fun s3 => commitNewItems env ctx f s3) env (typesOf env)
        pending completed items st = PassRes.done c s2 →
        InvI env ctx items c s2 := by
  intro pending
  induction pending with
  | nil =>
      intro _ completed st hinv c s2 h
      cases h
      exact hinv
  | cons t rest ih =>
      intro hpend completed st hinv c s2 h
      unfold typePass at h
      by_cases hc : completed.contains t.name = true
      · rw [if_pos hc] at h
        exact ih (fun u hu => hpend u (List.mem_cons_of_mem t hu)) completed st hinv
          c s2 h
      · rw [if_neg hc] at h
        by_cases hu : unresolvedDep env (typesOf env) completed t = true
        · rw [if_pos hu] at h
          exact ih (fun u hu2 => hpend u (List.mem_cons_of_mem t hu2)) completed st
            hinv c s2 h
        · rw [if_neg hu] at h
          rcases hres : processType (fun s3 => commitNewItems env ctx f s3) env t
              items completed st with ⟨r1, s1⟩ | ⟨c1, s1⟩
          · rw [hres] at h
            cases h
          · rw [hres] at h
            rcases processType_inv env ctx f items t completed st hnc hund
              (hpend t (List.mem_cons_self t rest)) (eq_false_of_ne_true hc)
              (eq_false_of_ne_true hu) hinv c1 s1 hres with ⟨hc1, hinv1⟩
            subst hc1
            exact ih (fun u hu2 => hpend u (List.mem_cons_of_mem t hu2)) _ s1
              hinv1 c s2 h

/-- The while loop preserves the invariant up to its successful exit. -/
theorem whileLoop_inv (env : Env) (ctx : Nat) (f : Nat)
    (items : List (CItem × Bool))
    (hnc : ∀ i ty, env.childItems i ty = [])
    (hund : (env.allTypes.map (fun u => u.name)).Nodup) :
    ∀ (wf : Nat) (completed : List String) (st : St),
      InvI env ctx items completed st →
      ∀ s2, whileLoop (fun s3 => commitNewItems env ctx f s3) env (typesOf env)
        items wf completed st = (some true, s2) →
        ∃ completedF, InvI env ctx items completedF s2 := by
  intro wf
  induction wf with
  | zero =>
      intro completed st _ s2 h
      unfold whileLoop at h
      have := congrArg Prod.fst h
      simp at this
  | succ wf ih =>
      intro completed st hinv s2 h
      unfold whileLoop at h
      by_cases hlen : ((typesOf env).length == completed.length) = true
      · rw [if_pos hlen] at h
        cases h
        exact ⟨completed, hinv⟩
      · rw [if_neg hlen] at h
        rcases hres : typePass (fun s3 => commitNewItems env ctx f s3) env
            (typesOf env) (typesOf env) completed items st with ⟨r1, s1⟩ | ⟨c1, s1⟩
        · rw [hres] at h
          cases h
          exact ((typePass_no_true_abort (fun s3 => commitNewItems env ctx f s3)
            env (typesOf env) items (typesOf env) completed st _ hres)).elim
        · rw [hres] at h
          exact ih c1 s1
            (typePass_inv env ctx f items hnc hund (typesOf env) (fun u hu => hu)
              completed st hinv c1 s1 hres) s2 h

/-- Restricted reachability turns the per-step dependency ordering into the
transitive before relation. -/
theorem reach_before (env : Env) (completedF : List String)
    (hE : ∀ tn ∈ completedF, ∀ d ∈ restrictedDeps env tn,
      completedBefore completedF d tn) :
    ∀ (rf : Nat) (A B : String), restrictedReach env rf A B = true →
      A ∈ completedF → completedBefore completedF B A := by
  intro rf
  induction rf with
  | zero =>
      intro A B h
      cases h
  | succ rf ih =>
      intro A B h hA
      unfold restrictedReach at h
      rcases List.any_eq_true.mp h with ⟨d, hd, hdp⟩
      have hdA := hE A hA d hd
      rcases Bool.or_eq_true_iff.mp hdp with h1 | h2
      · have hdb : d = B := by simpa using h1
        rw [← hdb]
        exact hdA
      · exact completedBefore_trans completedF B d A (ih d B h2 hdA.1) hdA

end CN

namespace CN

theorem collect_snd_named (ctx : Nat) (st : St) :
    ((collectCandidates ctx st).2).named = st.named := rfl

theorem collect_snd_objects (ctx : Nat) (st : St) :
    ((collectCandidates ctx st).2).objects = st.objects := rfl

theorem collect_snd_trace (ctx : Nat) (st : St) :
    ((collectCandidates ctx st).2).trace = st.trace := rfl

theorem collect_snd_unnamed (ctx : Nat) (st : St) :
    ((collectCandidates ctx st).2).unnamed =
      st.unnamed.filter (fun it => it.ctx != ctx) := rfl

/-- Candidate collection is complete for the named index: every uncommitted,
non-abstract named item of the context becomes a candidate. -/
theorem collect_named_complete (ctx : Nat) (st : St) (X : CItem)
    (hX : X ∈ st.named) (hctx : X.ctx = ctx) (habs : X.abstract = false)
    (hobj : X.id ∉ st.objects) : (X, false) ∈ (collectCandidates ctx st).1 := by
  unfold collectCandidates
  apply List.mem_append_left
  apply List.mem_map.mpr
  refine ⟨X, List.mem_filter.mpr ⟨hX, ?_⟩, rfl⟩
  have hc := contains_false_of_not_mem X.id st.objects hobj
  rw [habs, hc, hctx]
  simp

end CN

/-- Claim C3, counterexample: a completed `CommitNewItems` run (concrete
environment `cnEnvX`) in which (a) type B lies in the transitive declared
load-dependency set of type A (through the non-concrete type M), yet A's
instance runs `OnAllConfigLoaded` (trace index 4) before B's (index 5); and
(b) D is a direct concrete load dependency of C, yet the D instance created
by `CreateChildObjects` during C's finalization runs `OnAllConfigLoaded`
(index 10) after C's instance (index 7). -/
theorem c3_counterexample :
    (CN.commitNewItems Ex.cnEnvX 0 12 Ex.cnStX).1 = some true ∧
    "B" ∈ CN.specTransDeps Ex.cnEnvX 3 "A" ∧
    (CN.commitNewItems Ex.cnEnvX 0 12 Ex.cnStX).2.trace.get? 4 =
      some (CN.Ev.oacl 1 "A") ∧
    (CN.commitNewItems Ex.cnEnvX 0 12 Ex.cnStX).2.trace.get? 5 =
      some (CN.Ev.oacl 2 "B") ∧
    (4 : Nat) < 5 ∧
    CN.restrictedReach Ex.cnEnvX 2 "C" "D" = true ∧
    (CN.commitNewItems Ex.cnEnvX 0 12 Ex.cnStX).2.trace.get? 7 =
      some (CN.Ev.oacl 3 "C") ∧
    (CN.commitNewItems Ex.cnEnvX 0 12 Ex.cnStX).2.trace.get? 10 =
      some (CN.Ev.oacl 5 "D") ∧
    (7 : Nat) < 10 := by
  decide

/-- Claim C3, amended: in a completed `CommitNewItems` run in which
`CreateChildObjects` registers no new items, for every pair of type names
(A, B) with B reachable from A through load dependencies RESTRICTED to the
concrete config-object type set, every `OnAllConfigLoaded` event of B
precedes every `OnAllConfigLoaded` event of A in the run's trace.  (The
unrestricted transitive closure and runs with child-created items are
excluded: the counterexample shows both fail.)  Type names are unique and
item ids are pairwise distinct at entry; the run starts with a clean queue
and an empty trace. -/
theorem c3_load_dependency_amended (env : CN.Env) (ctx : Nat) (f : Nat)
    (st : CN.St) (A B : String) (rf : Nat)
    (hnc : ∀ i ty, env.childItems i ty = [])
    (hund : (env.allTypes.map (fun u => u.name)).Nodup)
    (hids : ((st.named ++ st.unnamed).map (fun it => it.id)).Nodup)
    (h0 : st.hasExn = false) (htr : st.trace = [])
    (hrun : (CN.commitNewItems env ctx f st).1 = some true)
    (hreach : CN.restrictedReach env rf A B = true) :
    ∀ i j x y,
      (CN.commitNewItems env ctx f st).2.trace.get? i = some (CN.Ev.oacl x A) →
      (CN.commitNewItems env ctx f st).2.trace.get? j = some (CN.Ev.oacl y B) →
      j < i := by
  intro i j x y hi hj
  rcases f with _ | f
  · simp [CN.commitNewItems] at hrun
  · simp only [CN.commitNewItems] at hrun hi hj
    by_cases hemp : (CN.collectCandidates ctx st).1.isEmpty = true
    · rw [if_pos hemp] at hi
      have htr2 : ((CN.collectCandidates ctx st).2).trace = st.trace :=
        CN.collect_snd_trace ctx st
      rw [htr2, htr] at hi
      simp at hi
    · rw [if_neg hemp] at hrun hi hj
      by_cases hx : (CN.runCommits env (CN.collectCandidates ctx st).1
          (CN.collectCandidates ctx st).2).hasExn = true
      · rw [if_pos hx] at hrun
        simp at hrun
      · rw [if_neg hx] at hrun hi hj
        have hinv0 : CN.InvI env ctx (CN.collectCandidates ctx st).1 []
            (CN.runCommits env (CN.collectCandidates ctx st).1
              (CN.collectCandidates ctx st).2) := by
          rcases CN.runCommits_trace_shape env (CN.collectCandidates ctx st).1
            (CN.collectCandidates ctx st).2 with ⟨ext, hext, hcsh⟩
          refine ⟨?_, ?_, ?_, ?_, ?_, ?_⟩
          · intro x2 tn hmem
            rw [hext, CN.collect_snd_trace, htr] at hmem
            simp at hmem
            rcases hcsh _ hmem with ⟨x3, he⟩
            cases he
          · intro X hX hctx habs hobj
            rw [CN.runCommits_named, CN.collect_snd_named] at hX
            have hXo : X.id ∉ st.objects := by
              intro hmem
              apply hobj
              apply CN.runCommits_objects_sup env (CN.collectCandidates ctx st).1
                (CN.collectCandidates ctx st).2 X.id
              rw [CN.collect_snd_objects]
              exact hmem
            have hcand := CN.collect_named_complete ctx st X hX hctx habs hXo
            rcases ho : env.commitOutcome X.id with _ | _ | _
            · exfalso
              apply hobj
              exact CN.runCommits_success_mem env (CN.collectCandidates ctx st).1
                (CN.collectCandidates ctx st).2 (X, false) hcand ho
            · rfl
            · exact absurd (CN.runCommits_exn_of_mem env
                (CN.collectCandidates ctx st).1 (CN.collectCandidates ctx st).2
                (X, false) hcand ho) hx
          · intro it hit
            rw [CN.runCommits_unnamed, CN.collect_snd_unnamed] at hit
            have := (List.mem_filter.mp hit).2
            simpa [bne] using this
          · intro p hp x2 hxm hid
            have hpm := CN.collect_mem ctx st p hp
            have hxm2 : x2 ∈ st.named ∨ x2 ∈ st.unnamed := by
              rcases hxm with hxm | hxm
              · rw [CN.runCommits_named, CN.collect_snd_named] at hxm
                exact Or.inl hxm
              · rw [CN.runCommits_unnamed, CN.collect_snd_unnamed] at hxm
                exact Or.inr (List.mem_filter.mp hxm).1
            exact List.inj_on_of_nodup_map hids
              (List.mem_append.mpr hxm2) (List.mem_append.mpr hpm.1) hid
          · intro tn htn
            cases htn
          · intro b a hba
            cases hba.1
        rcases hwl : CN.whileLoop (fun s3 => CN.commitNewItems env ctx f s3) env
            (CN.typesOf env) (CN.collectCandidates ctx st).1 (f + 1) []
            (CN.runCommits env (CN.collectCandidates ctx st).1
              (CN.collectCandidates ctx st).2) with ⟨r, stF⟩
        rw [hwl] at hrun hi hj
        have hr : r = some true := hrun
        subst hr
        obtain ⟨completedF, hinvF⟩ := CN.whileLoop_inv env ctx f
          (CN.collectCandidates ctx st).1 hnc hund (f + 1) [] _ hinv0 stF hwl
        have hA : A ∈ completedF := hinvF.1 x A (List.get?_mem hi)
        have hBA := CN.reach_before env completedF hinvF.2.2.2.2.1 rf A B hreach hA
        exact hinvF.2.2.2.2.2 B A hBA j i y x hj hi

/-- Claim C3, witness for the amended theorem: S declares a load dependency
on H (both concrete); in the completed concrete run H's event (index 2)
precedes S's event (index 3). -/
theorem c3_load_dependency_amended_witness :
    CN.restrictedReach Ex.cnEnvW 1 "S" "H" = true ∧ (2 : Nat) < 3 := by
  refine ⟨by decide, ?_⟩
  exact c3_load_dependency_amended Ex.cnEnvW 0 6 Ex.cnStW "S" "H" 1
    (fun i ty => rfl) (by decide) (by decide) rfl rfl (by decide) (by decide)
    3 2 1 2 (by decide) (by decide)
